import Mathlib

/-!
# Verification of the jqassistant-graph-rag enrichment pipeline

This file gives a shallow embedding, in Lean 4, of the parts of the
jqassistant-graph-rag code base that the specification's claims are about:

* `SummaryCacheManager` (`summary_cache_manager.py`): the atomic save /
  promotion / backup-rotation protocol and the runtime dependency-freshness
  map.
* `TokenManager` (`token_manager.py`): token chunking of long texts and of
  summary lists.
* `NodeSummaryProcessor` (`node_summary_processor.py`): the per-node
  waterfall (DB-fresh → cache-restore → regenerate) for method, type and
  hierarchical summaries, with the LLM modelled as an oracle and every
  issued prompt recorded in a trace.
* `MethodSummarizer` (`method_summarizer.py`): the items query feeding the
  method-summary pass.
* `GraphOrchestrator.run_enrichment_passes` (`graph_orchestrator.py`):
  modelled as the trace of component passes it invokes.
* `GraphBasicNormalizer.add_absolute_paths` (`graph_basic_normalizer.py`)
  and `GraphEntitySetter.create_entities_and_stable_ids`
  (`graph_entity_setter.py`): modelled over an explicit labelled property
  graph.
* `ArtifactDataNormalizer._process_single_directory_artifact`
  (`artifact_data_normalizer.py`): the anchor-selection loop.

Python strings are modelled as `String` (or as `List Char` where the code
works character-wise with `split`/`join`), Python `dict`s as
insertion-ordered association lists (Python dicts preserve insertion
order), Python integers as `Nat`, and fallible values as `Option`.
Floating-point thresholds are modelled by the exact rational comparison
they implement (see the comments at the relevant definitions).
-/

/-! ## Cache store (`summary_cache_manager.py`) -/

/-- One record of the on-disk summary cache: `{ summary?, code_analysis?,
code_hash? }` (`summary_cache.json` format, spec §6). -/
structure CacheEntry where
  summary : Option String := none
  code_analysis : Option String := none
  code_hash : Option String := none
  deriving Repr, DecidableEq

/-- The cache is a mapping `entity_id → CacheEntry`; modelled as an
insertion-ordered association list, like a Python `dict`. -/
abbrev CacheMap := List (String × CacheEntry)

/-- Contents of one on-disk file: either bytes that parse as a JSON cache
map, or bytes that do not (`json.load` raises on them). -/
inductive FileData where
  | json (m : CacheMap)
  | raw (s : String)
  deriving Repr, DecidableEq

/-- The four files of the cache directory (`summary_cache.json`, its
`.tmp`, `.bak.1` and `.bak.2` siblings); `none` means the file does not
exist. -/
structure FsState where
  main : Option FileData := none
  tmp : Option FileData := none
  bak1 : Option FileData := none
  bak2 : Option FileData := none
  deriving Repr, DecidableEq

namespace SummaryCacheManager

/-- `_rotate_backups`: delete `.bak.2` if present, move `.bak.1 → .bak.2`
if present, move main → `.bak.1` if present. -/
def rotate_backups (fs : FsState) : FsState :=
  let fs1 : FsState := if fs.bak2.isSome then { fs with bak2 := none } else fs
  let fs2 : FsState :=
    match fs1.bak1 with
    | some d => { fs1 with bak2 := some d, bak1 := none }
    | none => fs1
  match fs2.main with
  | some d => { fs2 with bak1 := some d, main := none }
  | none => fs2

/-- The tail of `_promote_tmp_cache` after the sanity check passes:
rotate the backups, then `shutil.move` the `.tmp` file onto the main
file. -/
def finish_promotion (fs : FsState) : FsState :=
  let fs1 := rotate_backups fs
  { fs1 with main := fs1.tmp, tmp := none }

/-- `_promote_tmp_cache`: if the main file exists and parses, abort when
`new_cache_size < old_cache_size * 0.95 and old_cache_size > 100`
(the float comparison `new < old * 0.95` on non-negative integers is
exactly `20 * new < 19 * old`); if the main file is missing or fails to
parse, proceed with the promotion. -/
def promote_tmp_cache (cache : CacheMap) (fs : FsState) : FsState :=
  match fs.main with
  | some (FileData.json old_map) =>
      if 20 * cache.length < 19 * old_map.length ∧ 100 < old_map.length then
        fs
      else
        finish_promotion fs
  | some (FileData.raw _) => finish_promotion fs
  | none => finish_promotion fs

/-- `save`: write the in-memory cache to the `.tmp` file, then promote. -/
def save (cache : CacheMap) (fs : FsState) : FsState :=
  promote_tmp_cache cache { fs with tmp := some (FileData.json cache) }

/-- `was_dependency_changed`: true iff some id in the list is marked
`changed` in the runtime-status map of the current run. -/
def was_dependency_changed (runtime_changed : List String)
    (dependency_ids : List String) : Bool :=
  dependency_ids.any (fun dep_id => runtime_changed.contains dep_id)

end SummaryCacheManager

namespace SummaryCacheManager

/-- A concrete pre-existing main-cache map with 101 entries, used to
exercise the sanity gate. -/
def big_old_map : CacheMap := (List.range 101).map (fun i => (toString i, {}))

/-- A concrete filesystem state whose main cache file holds
`big_old_map`. -/
def big_main_fs : FsState := { main := some (FileData.json big_old_map) }

/-- `save` leaves the backup files and the main file untouched when it
aborts; the abort path returns before any rotation. -/
theorem save_abort_eq (cache : CacheMap) (fs : FsState) (old_map : CacheMap)
    (hmain : fs.main = some (FileData.json old_map))
    (hsize : 20 * cache.length < 19 * old_map.length)
    (hfloor : 100 < old_map.length) :
    save cache fs = { fs with tmp := some (FileData.json cache) } := by
  unfold save promote_tmp_cache
  simp only [hmain]
  rw [if_pos ⟨hsize, hfloor⟩]

/-- On any promotion path, the main file ends up holding the new map, the
`.tmp` file is consumed, `.bak.1` receives the pre-save main file and
`.bak.2` receives the pre-save `.bak.1`. -/
theorem finish_promotion_spec (cache : CacheMap) (fs : FsState) :
    (finish_promotion { fs with tmp := some (FileData.json cache) }).main
        = some (FileData.json cache) ∧
    (finish_promotion { fs with tmp := some (FileData.json cache) }).tmp = none ∧
    (finish_promotion { fs with tmp := some (FileData.json cache) }).bak1 = fs.main ∧
    (finish_promotion { fs with tmp := some (FileData.json cache) }).bak2 = fs.bak1 := by
  rcases fs with ⟨main, tmp, bak1, bak2⟩
  unfold finish_promotion rotate_backups
  cases main <;> cases bak1 <;> cases bak2 <;> simp

end SummaryCacheManager

/-- C2: `save` first writes the in-memory map to `.tmp`; if the main cache
file exists, parses to a map of size `old > 100`, and the new size is
below `0.95·old`, promotion is aborted with the main file unchanged and
the `.tmp` file left in place; in every other situation the map is
promoted, after which the main file holds the new map and `.bak.1` holds
the pre-save main file. -/
theorem save_sanity_gate (cache : CacheMap) (fs : FsState) :
    (∀ old_map, fs.main = some (FileData.json old_map) →
        20 * cache.length < 19 * old_map.length → 100 < old_map.length →
        (SummaryCacheManager.save cache fs).main = fs.main ∧
        (SummaryCacheManager.save cache fs).tmp = some (FileData.json cache)) ∧
    ((∀ old_map, fs.main = some (FileData.json old_map) →
        ¬(20 * cache.length < 19 * old_map.length ∧ 100 < old_map.length)) →
        (SummaryCacheManager.save cache fs).main = some (FileData.json cache) ∧
        (SummaryCacheManager.save cache fs).bak1 = fs.main) := by
  constructor
  · intro old_map hmain hsize hfloor
    rw [SummaryCacheManager.save_abort_eq cache fs old_map hmain hsize hfloor]
    exact ⟨rfl, rfl⟩
  · intro hno
    have hpromote : SummaryCacheManager.save cache fs =
        SummaryCacheManager.finish_promotion
          { fs with tmp := some (FileData.json cache) } := by
      unfold SummaryCacheManager.save SummaryCacheManager.promote_tmp_cache
      rcases hm : fs.main with _ | (old_map | s)
      · simp [hm]
      · have hnot : ¬(20 * cache.length < 19 * old_map.length
            ∧ 100 < old_map.length) := hno old_map hm
        simp [hm, hnot]
      · simp [hm]
    rw [hpromote]
    have h := SummaryCacheManager.finish_promotion_spec cache fs
    exact ⟨h.1, h.2.2.1⟩

/-- Closed witness for C2: the abort branch at a 101-entry old map with an
empty new map, and the promote branch at an empty filesystem. -/
theorem save_sanity_gate_witness :
    ((SummaryCacheManager.save [] SummaryCacheManager.big_main_fs).main
        = SummaryCacheManager.big_main_fs.main ∧
     (SummaryCacheManager.save [] SummaryCacheManager.big_main_fs).tmp
        = some (FileData.json [])) ∧
    ((SummaryCacheManager.save [("a", {})] {}).main
        = some (FileData.json [("a", {})]) ∧
     (SummaryCacheManager.save [("a", {})] {}).bak1 = FsState.main {}) :=
  ⟨(save_sanity_gate [] SummaryCacheManager.big_main_fs).1
      SummaryCacheManager.big_old_map rfl
      (by simp [SummaryCacheManager.big_old_map])
      (by simp [SummaryCacheManager.big_old_map]),
   (save_sanity_gate [("a", {})] {}).2 (fun _ h => nomatch h)⟩

/-- C10: when the main cache file exists but does not parse as JSON, the
sanity check is skipped and `save` still promotes: backups rotate, `.tmp`
becomes the main file, and the unreadable old main file is moved to
`.bak.1` rather than preserved as the main file. -/
theorem save_replaces_unreadable_main (cache : CacheMap) (fs : FsState)
    (s : String) (h : fs.main = some (FileData.raw s)) :
    (SummaryCacheManager.save cache fs).main = some (FileData.json cache) ∧
    (SummaryCacheManager.save cache fs).tmp = none ∧
    (SummaryCacheManager.save cache fs).bak1 = some (FileData.raw s) ∧
    (SummaryCacheManager.save cache fs).bak2 = fs.bak1 := by
  have hsave : SummaryCacheManager.save cache fs =
      SummaryCacheManager.finish_promotion
        { fs with tmp := some (FileData.json cache) } := by
    unfold SummaryCacheManager.save SummaryCacheManager.promote_tmp_cache
    rw [h]
  rw [hsave]
  have hspec := SummaryCacheManager.finish_promotion_spec cache fs
  exact ⟨hspec.1, hspec.2.1, h ▸ hspec.2.2.1, hspec.2.2.2⟩

/-- Closed witness for C10: a corrupt one-byte main file next to an old
backup is replaced by the promoted map. -/
theorem save_replaces_unreadable_main_witness :
    (SummaryCacheManager.save [("a", {})]
        { main := some (FileData.raw "x"), bak1 := some (FileData.json []) }).main
      = some (FileData.json [("a", {})]) ∧
    (SummaryCacheManager.save [("a", {})]
        { main := some (FileData.raw "x"), bak1 := some (FileData.json []) }).tmp
      = none ∧
    (SummaryCacheManager.save [("a", {})]
        { main := some (FileData.raw "x"), bak1 := some (FileData.json []) }).bak1
      = some (FileData.raw "x") ∧
    (SummaryCacheManager.save [("a", {})]
        { main := some (FileData.raw "x"), bak1 := some (FileData.json []) }).bak2
      = FsState.bak1 { main := some (FileData.raw "x"), bak1 := some (FileData.json []) } :=
  save_replaces_unreadable_main [("a", {})]
    { main := some (FileData.raw "x"), bak1 := some (FileData.json []) } "x" rfl

/-! ## Orchestrator (`graph_orchestrator.py`) -/

/-- One component pass that `GraphOrchestrator.run_enrichment_passes` can
invoke; each constructor names a method of the normalization or linking
components. -/
inductive PassId where
  | merge_duplicate_types
  | add_absolute_paths
  | label_source_files
  | link_types_to_source_files
  | link_members_to_source_files
  | create_project_node
  | establish_source_hierarchy
  | relocate_directory_artifacts
  | rewrite_containment_relationships
  | rewrite_requirement_relationships
  | establish_class_hierarchy
  | cleanup_package_semantics
  | link_project_to_artifacts
  | create_entities_and_stable_ids
  deriving DecidableEq, Repr, Fintype

namespace GraphOrchestrator

/-- The trace of component method calls made by
`GraphOrchestrator.run_enrichment_passes`, in source order (the body is
straight-line code with no branches, so the trace is this fixed list). -/
def run_enrichment_passes : List PassId :=
  [PassId.add_absolute_paths,
   PassId.label_source_files,
   PassId.link_types_to_source_files,
   PassId.link_members_to_source_files,
   PassId.create_project_node,
   PassId.establish_source_hierarchy,
   PassId.relocate_directory_artifacts,
   PassId.rewrite_containment_relationships,
   PassId.establish_class_hierarchy,
   PassId.cleanup_package_semantics,
   PassId.link_project_to_artifacts,
   PassId.create_entities_and_stable_ids]

/-- The source-linker passes of `source_file_linker.py`. -/
def source_linker_passes : List PassId :=
  [PassId.link_types_to_source_files, PassId.link_members_to_source_files]

end GraphOrchestrator

/-- C1 counterexample: `run_enrichment_passes` does not execute the nine
normalization passes of spec §4.3 — the merge-duplicates pass and the
rewrite-requirements pass are never invoked at all, and the Source Linker
runs before the relocate-directory-artifacts normalization pass rather
than after all normalization passes. -/
theorem run_enrichment_passes_ne_spec_order :
    PassId.merge_duplicate_types ∉ GraphOrchestrator.run_enrichment_passes ∧
    PassId.rewrite_requirement_relationships ∉ GraphOrchestrator.run_enrichment_passes ∧
    GraphOrchestrator.run_enrichment_passes.indexOf
        PassId.link_types_to_source_files <
      GraphOrchestrator.run_enrichment_passes.indexOf
        PassId.relocate_directory_artifacts := by
  decide

/-- C1 amended: each invocation of `run_enrichment_passes` executes twelve
passes, each at most once, in the fixed source order: basic normalization
(absolute paths, source-file labels), then the Source Linker, then project
node and source hierarchy, then artifact relocation, containment rewrite,
class hierarchy, package cleanup and project linking, and finally entity-id
assignment; the merge-duplicates and rewrite-requirements passes are never
run. -/
theorem run_enrichment_passes_actual_order :
    (∀ p : PassId, GraphOrchestrator.run_enrichment_passes.count p ≤ 1) ∧
    GraphOrchestrator.run_enrichment_passes.count PassId.merge_duplicate_types = 0 ∧
    GraphOrchestrator.run_enrichment_passes.count
        PassId.rewrite_requirement_relationships = 0 ∧
    GraphOrchestrator.run_enrichment_passes.count PassId.add_absolute_paths = 1 ∧
    GraphOrchestrator.run_enrichment_passes.count
        PassId.relocate_directory_artifacts = 1 ∧
    GraphOrchestrator.run_enrichment_passes.indexOf PassId.add_absolute_paths <
      GraphOrchestrator.run_enrichment_passes.indexOf PassId.label_source_files ∧
    GraphOrchestrator.run_enrichment_passes.indexOf PassId.label_source_files <
      GraphOrchestrator.run_enrichment_passes.indexOf
        PassId.link_types_to_source_files ∧
    (∀ p ∈ GraphOrchestrator.source_linker_passes,
      GraphOrchestrator.run_enrichment_passes.indexOf p <
        GraphOrchestrator.run_enrichment_passes.indexOf
          PassId.relocate_directory_artifacts) ∧
    GraphOrchestrator.run_enrichment_passes.indexOf
        PassId.relocate_directory_artifacts <
      GraphOrchestrator.run_enrichment_passes.indexOf
        PassId.rewrite_containment_relationships ∧
    GraphOrchestrator.run_enrichment_passes.indexOf
        PassId.rewrite_containment_relationships <
      GraphOrchestrator.run_enrichment_passes.indexOf
        PassId.establish_class_hierarchy ∧
    GraphOrchestrator.run_enrichment_passes.indexOf
        PassId.establish_class_hierarchy <
      GraphOrchestrator.run_enrichment_passes.indexOf
        PassId.cleanup_package_semantics ∧
    GraphOrchestrator.run_enrichment_passes.indexOf
        PassId.cleanup_package_semantics <
      GraphOrchestrator.run_enrichment_passes.indexOf
        PassId.link_project_to_artifacts ∧
    GraphOrchestrator.run_enrichment_passes.indexOf
        PassId.link_project_to_artifacts <
      GraphOrchestrator.run_enrichment_passes.indexOf
        PassId.create_entities_and_stable_ids ∧
    GraphOrchestrator.run_enrichment_passes.getLast? =
      some PassId.create_entities_and_stable_ids := by
  decide

/-! ## Token budgeter (`token_manager.py`)

Tokenization itself is external (`tiktoken`); the chunking logic operates
on the encoded token list, so it is modelled on `List Nat` (token ids).
The token count of a produced chunk is the length of its token slice.
`int(0.5 * m)` is exactly `m / 2` and `int(0.1 * c)` is exactly `c / 10`
for every machine integer that can arise here, so the derived sizes are
modelled with exact `Nat` division. -/

namespace TokenManager

/-- `iterative_chunk_size = int(0.5 * max_context_token_size)`. -/
def iterative_chunk_size (max_context_token_size : Nat) : Nat :=
  max_context_token_size / 2

/-- `iterative_chunk_overlap = int(0.1 * iterative_chunk_size)`. -/
def iterative_chunk_overlap (max_context_token_size : Nat) : Nat :=
  iterative_chunk_size max_context_token_size / 10

/-- The `while True` loop of `chunk_text_by_tokens`, written on the token
suffix `rest = tokens[i:]` that remains at index `i`:

* if `i + chunk_size >= len(tokens)` (i.e. `rest.length ≤ chunk_size`),
  append `tokens[i:]` and stop;
* otherwise append `tokens[i : i+chunk_size]` and advance `i` by
  `stride = chunk_size - overlap`;
* after advancing, if the remainder fits and is shorter than half a chunk
  (`len - i < chunk_size * 0.5`, i.e. `2 * rest'.length < chunk_size`),
  replace the chunk just appended by `tokens[i - stride:]` (that is, by
  the whole previous suffix `rest`) and stop.

The loop always terminates because the stride is positive; the explicit
`fuel` argument only makes the recursion structural, and
`chunk_loop_fuel_irrel` below shows the result does not depend on it once
it is at least `rest.length`. -/
def chunk_loop (chunk_size overlap : Nat) : Nat → List Nat → List (List Nat)
  | 0, rest => [rest]
  | fuel + 1, rest =>
    if rest.length ≤ chunk_size then
      [rest]
    else
      let stride := chunk_size - overlap
      let rest' := rest.drop stride
      if rest'.length ≤ chunk_size ∧ 2 * rest'.length < chunk_size then
        [rest]
      else
        rest.take chunk_size :: chunk_loop chunk_size overlap fuel rest'

/-- `chunk_text_by_tokens` on the encoded token list: empty input gives
no chunks, otherwise run the loop. -/
def chunk_text_by_tokens (chunk_size overlap : Nat) (tokens : List Nat) :
    List (List Nat) :=
  if tokens.isEmpty then [] else chunk_loop chunk_size overlap tokens.length tokens

/-- The fuel argument of `chunk_loop` is irrelevant as soon as it covers
the length of the remaining suffix: the embedding computes the same
chunks as the unbounded Python loop. -/
theorem chunk_loop_fuel_irrel (chunk_size overlap : Nat)
    (hov : overlap < chunk_size) :
    ∀ fuel fuel' (rest : List Nat), rest.length ≤ fuel → rest.length ≤ fuel' →
      chunk_loop chunk_size overlap fuel rest
        = chunk_loop chunk_size overlap fuel' rest := by
  intro fuel
  induction fuel with
  | zero =>
      intro fuel' rest hf hf'
      have hnil : rest = [] := List.eq_nil_of_length_eq_zero (Nat.le_zero.mp hf)
      subst hnil
      cases fuel' with
      | zero => rfl
      | succ m =>
          simp [chunk_loop, Nat.le_of_lt hov, Nat.zero_le]
  | succ n ih =>
      intro fuel' rest hf hf'
      cases fuel' with
      | zero =>
          have hnil : rest = [] := List.eq_nil_of_length_eq_zero (Nat.le_zero.mp hf')
          subst hnil
          simp [chunk_loop]
      | succ m =>
          by_cases hfit : rest.length ≤ chunk_size
          · simp [chunk_loop, hfit]
          · have hlen : 0 < chunk_size - overlap := Nat.sub_pos_of_lt hov
            have hdrop : (rest.drop (chunk_size - overlap)).length
                = rest.length - (chunk_size - overlap) := List.length_drop _ _
            have hrec : (rest.drop (chunk_size - overlap)).length ≤ n := by
              rw [hdrop]
              omega
            have hrec' : (rest.drop (chunk_size - overlap)).length ≤ m := by
              rw [hdrop]
              omega
            simp only [chunk_loop, if_neg hfit]
            by_cases hmerge : (rest.drop (chunk_size - overlap)).length ≤ chunk_size
                ∧ 2 * (rest.drop (chunk_size - overlap)).length < chunk_size
            · rw [if_pos hmerge, if_pos hmerge]
            · rw [if_neg hmerge, if_neg hmerge, ih m _ hrec hrec']

/-- Every chunk the loop emits, when started with enough fuel, holds
strictly fewer than `1.5 · chunk_size` tokens: regular chunks are exactly
`chunk_size` long, a final unmerged chunk is at most `chunk_size` long,
and a merged final chunk is `stride + remainder` long with
`2 · remainder < chunk_size`. -/
theorem chunk_loop_bound (chunk_size overlap : Nat)
    (hov : overlap < chunk_size) :
    ∀ fuel (rest : List Nat), rest.length ≤ fuel →
      ∀ c ∈ chunk_loop chunk_size overlap fuel rest,
        2 * c.length < 3 * chunk_size := by
  intro fuel
  induction fuel with
  | zero =>
      intro rest hf c hc
      have hnil : rest = [] := List.eq_nil_of_length_eq_zero (Nat.le_zero.mp hf)
      subst hnil
      simp only [chunk_loop, List.mem_singleton] at hc
      subst hc
      simp only [List.length_nil, Nat.mul_zero]
      omega
  | succ n ih =>
      intro rest hf c hc
      by_cases hfit : rest.length ≤ chunk_size
      · simp only [chunk_loop, if_pos hfit, List.mem_singleton] at hc
        subst hc
        omega
      · have hdrop : (rest.drop (chunk_size - overlap)).length
            = rest.length - (chunk_size - overlap) := List.length_drop _ _
        simp only [chunk_loop, if_neg hfit] at hc
        by_cases hmerge : (rest.drop (chunk_size - overlap)).length ≤ chunk_size
            ∧ 2 * (rest.drop (chunk_size - overlap)).length < chunk_size
        · rw [if_pos hmerge, List.mem_singleton] at hc
          subst hc
          have h2 := hmerge.2
          rw [hdrop] at h2
          omega
        · rw [if_neg hmerge, List.mem_cons] at hc
          cases hc with
          | inl h =>
              subst h
              have htake : (rest.take chunk_size).length = chunk_size := by
                rw [List.length_take]
                omega
              omega
          | inr h =>
              have hrec : (rest.drop (chunk_size - overlap)).length ≤ n := by
                rw [hdrop]
                omega
              exact ih _ hrec c h

end TokenManager

/-- C5 counterexample: with `max_context = 40` (so
`iter_chunk = 20`, `overlap = 2`, stride `18`), a 25-token input is
returned as one single chunk of 25 tokens — the trailing remainder of 7
tokens is merged into the previous stride window, and the merged chunk
exceeds `iter_chunk`. -/
theorem chunk_text_by_tokens_oversize_chunk :
    TokenManager.chunk_text_by_tokens
        (TokenManager.iterative_chunk_size 40)
        (TokenManager.iterative_chunk_overlap 40)
        (List.range 25)
      = [List.range 25] ∧
    TokenManager.iterative_chunk_size 40 < (List.range 25).length := by
  decide

/-- C5 amended: for every token list, every chunk produced by
`chunk_text_by_tokens` with `iter_chunk = max_context / 2` and
`overlap = iter_chunk / 10` holds strictly fewer than `1.5 · iter_chunk`
tokens (exactly: `2 · |chunk| < 3 · iter_chunk`); the merged trailing
remainder can push the final chunk above `iter_chunk`, but never to
`stride + iter_chunk / 2` or beyond. -/
theorem chunk_text_by_tokens_chunk_bound (max_context : Nat)
    (hm : 2 ≤ max_context) (tokens : List Nat) :
    ∀ c ∈ TokenManager.chunk_text_by_tokens
        (TokenManager.iterative_chunk_size max_context)
        (TokenManager.iterative_chunk_overlap max_context) tokens,
      2 * c.length < 3 * TokenManager.iterative_chunk_size max_context := by
  intro c hc
  have hcs : 0 < TokenManager.iterative_chunk_size max_context := by
    unfold TokenManager.iterative_chunk_size
    omega
  have hov : TokenManager.iterative_chunk_overlap max_context
      < TokenManager.iterative_chunk_size max_context := by
    unfold TokenManager.iterative_chunk_overlap
    exact Nat.div_lt_self hcs (by omega)
  unfold TokenManager.chunk_text_by_tokens at hc
  by_cases hnil : tokens.isEmpty
  · rw [if_pos hnil] at hc
    cases hc
  · rw [if_neg hnil] at hc
    exact TokenManager.chunk_loop_bound _ _ hov tokens.length tokens le_rfl c hc

/-- Closed witness for the amended C5 bound: the oversized merged chunk of
the counterexample still satisfies the `1.5 · iter_chunk` bound. -/
theorem chunk_text_by_tokens_chunk_bound_witness :
    2 * (List.range 25).length < 3 * TokenManager.iterative_chunk_size 40 :=
  chunk_text_by_tokens_chunk_bound 40 (by decide) (List.range 25)
    (List.range 25) (by decide)

/-! ## Artifact relocation (`artifact_data_normalizer.py`)

`_process_single_directory_artifact` works on Python strings with
`split`, `join`, `endswith`, `startswith` and slicing; strings are
modelled as `List Char` and those operations as the character-level
functions below. -/

/-- A Python string, character by character. -/
abbrev PyStr := List Char

namespace ArtifactDataNormalizer

/-- Python `s.split(c)` for a one-character separator: always returns at
least one (possibly empty) piece. -/
def split_char (c : Char) : List Char → List (List Char)
  | [] => [[]]
  | x :: xs =>
    match split_char c xs with
    | [] => [[]]
    | y :: ys => if x = c then [] :: y :: ys else (x :: y) :: ys

/-- Python `c.join(pieces)` for a one-character separator. -/
def join_sep (c : Char) : List (List Char) → List Char
  | [] => []
  | [s] => s
  | s :: s2 :: rest => s ++ c :: join_sep c (s2 :: rest)

/-- Python `max(keys, key=len)` over the keys of an insertion-ordered
dict of `(fqn, path)` pairs: the first pair whose fqn has maximal
length. -/
def max_by_len : List (PyStr × PyStr) → Option (PyStr × PyStr)
  | [] => none
  | kv :: rest =>
    match max_by_len rest with
    | none => some kv
    | some best => if kv.1.length < best.1.length then some best else some kv

theorem split_char_ne_nil (c : Char) (l : List Char) : split_char c l ≠ [] := by
  induction l with
  | nil => simp [split_char]
  | cons x xs ih =>
      rcases hsp : split_char c xs with _ | ⟨y, ys⟩
      · exact absurd hsp ih
      · simp only [split_char, hsp]
        split_ifs <;> simp

theorem two_le_split_length {c : Char} {l : List Char} (h : c ∈ l) :
    2 ≤ (split_char c l).length := by
  induction l with
  | nil => cases h
  | cons x xs ih =>
      rcases hsp : split_char c xs with _ | ⟨y, ys⟩
      · exact absurd hsp (split_char_ne_nil c xs)
      · simp only [split_char, hsp]
        by_cases hx : x = c
        · simp [hx]
        · have hc : c ∈ xs := by
            cases h with
            | head => exact absurd rfl hx
            | tail _ h2 => exact h2
          have := ih hc
          rw [hsp] at this
          simp only [if_neg hx, List.length_cons]
          simp only [List.length_cons] at this
          omega

theorem join_split (c : Char) (l : List Char) :
    join_sep c (split_char c l) = l := by
  induction l with
  | nil => simp [split_char, join_sep]
  | cons x xs ih =>
      rcases hsp : split_char c xs with _ | ⟨y, ys⟩
      · exact absurd hsp (split_char_ne_nil c xs)
      · rw [hsp] at ih
        simp only [split_char, hsp]
        by_cases hx : x = c
        · subst hx
          simp only [if_pos rfl, join_sep]
          rw [ih]
          simp
        · rw [if_neg hx]
          cases ys with
          | nil => simp only [join_sep] at ih ⊢; rw [ih]
          | cons y2 ys2 =>
              simp only [join_sep] at ih ⊢
              rw [← ih]
              simp

theorem join_sep_concat (c : Char) (S : List (List Char)) (y : List Char)
    (hne : S ≠ []) : join_sep c (S ++ [y]) = join_sep c S ++ c :: y := by
  induction S with
  | nil => exact absurd rfl hne
  | cons s S' ih =>
      cases S' with
      | nil => simp [join_sep]
      | cons s2 S'' =>
          have hih := ih (by simp)
          rw [List.cons_append] at hih
          calc join_sep c ((s :: s2 :: S'') ++ [y])
              = s ++ c :: join_sep c (s2 :: (S'' ++ [y])) := rfl
            _ = s ++ c :: (join_sep c (s2 :: S'') ++ c :: y) := by rw [hih]
            _ = join_sep c (s :: s2 :: S'') ++ c :: y := by
                simp [join_sep, List.append_assoc]

theorem max_by_len_mem {m : List (PyStr × PyStr)} {kv : PyStr × PyStr}
    (h : max_by_len m = some kv) : kv ∈ m := by
  induction m generalizing kv with
  | nil => cases h
  | cons a rest ih =>
      rcases hr : max_by_len rest with _ | best
      · simp only [max_by_len, hr] at h
        cases h
        exact List.mem_cons_self _ _
      · simp only [max_by_len, hr] at h
        split_ifs at h
        · cases h
          exact List.mem_cons_of_mem _ (ih hr)
        · cases h
          exact List.mem_cons_self _ _

theorem length_filter_lt_of_mem {α : Type} {l : List α} {p : α → Bool} {a : α}
    (ha : a ∈ l) (hpa : p a = false) : (l.filter p).length < l.length := by
  induction l with
  | nil => cases ha
  | cons b l' ih =>
      rcases List.mem_cons.mp ha with hab | ha'
      · subst hab
        rw [List.filter_cons, if_neg (by simp [hpa])]
        have := List.length_filter_le p l'
        simp only [List.length_cons]
        omega
      · rw [List.filter_cons]
        by_cases hpb : p b = true
        · rw [if_pos (by simp [hpb])]
          have := ih ha'
          simp only [List.length_cons]
          omega
        · rw [if_neg (by simp at hpb ⊢; exact hpb)]
          have := List.length_filter_le p l'
          simp only [List.length_cons]
          omega

end ArtifactDataNormalizer

namespace ArtifactDataNormalizer

/-- The loop body of `_process_single_directory_artifact` once the anchor
`(anchor_fqn, anchor_path)` has been selected: compute the expected
package suffix and the anchor file's parent directory; on suffix mismatch
delete just the anchor key; on match strip the suffix to obtain
`artifact_root_path` and delete every class whose path is under that root
(the recorded `true_artifact_roots` set does not affect which keys are
removed, so it is omitted here). -/
def anchor_removal (anchor_fqn anchor_path : PyStr)
    (unprocessed : List (PyStr × PyStr)) : List (PyStr × PyStr) :=
  let package_parts := (split_char '.' anchor_fqn).dropLast
  let package_as_path : PyStr :=
    if package_parts.isEmpty then [] else '/' :: join_sep '/' package_parts
  let anchor_dir := join_sep '/' ((split_char '/' anchor_path).dropLast)
  if ¬ package_as_path.isSuffixOf anchor_dir then
    unprocessed.eraseP (fun kv => kv.1 == anchor_fqn)
  else
    let artifact_root_path :=
      if package_as_path.isEmpty then anchor_dir
      else anchor_dir.take (anchor_dir.length - package_as_path.length)
    unprocessed.filter
      (fun kv => !((artifact_root_path ++ ['/']).isPrefixOf kv.2
                   || kv.2 == artifact_root_path))

/-- One iteration of the `while unprocessed_classes:` loop: select the
first longest-fqn anchor and perform its removal step. -/
def relocate_anchor_step (unprocessed : List (PyStr × PyStr)) :
    List (PyStr × PyStr) :=
  match max_by_len unprocessed with
  | none => unprocessed
  | some (anchor_fqn, anchor_path) => anchor_removal anchor_fqn anchor_path unprocessed

/-- The anchor-key deletion of the mismatch branch shrinks the map. -/
theorem eraseP_anchor_decreases (afqn : PyStr) (m : List (PyStr × PyStr))
    (kv : PyStr × PyStr) (hmem : kv ∈ m) (hk : kv.1 = afqn) :
    (m.eraseP (fun kv => kv.1 == afqn)).length < m.length := by
  have hpa : ((fun kv : PyStr × PyStr => kv.1 == afqn) kv) = true := by
    simp [hk]
  have h := @List.length_eraseP_add_one (PyStr × PyStr)
      (fun kv => kv.1 == afqn) m kv hmem hpa
  omega

/-- The batch deletion of the match branch shrinks the map whenever the
anchor path lies strictly under the discovered root. -/
theorem filter_batch_decreases (root afqn apath : PyStr)
    (m : List (PyStr × PyStr)) (hmem : (afqn, apath) ∈ m)
    (hpref : (root ++ ['/']) <+: apath) :
    (m.filter (fun kv => !((root ++ ['/']).isPrefixOf kv.2
        || kv.2 == root))).length < m.length := by
  apply length_filter_lt_of_mem hmem
  have h1 : (root ++ ['/']).isPrefixOf apath = true :=
    List.isPrefixOf_iff_prefix.mpr hpref
  simp [h1]

/-- The anchor pair itself is always removed by its removal step (directly
on package-suffix mismatch, or as a member of the batch of classes under
the discovered artifact root), so the unprocessed map shrinks strictly. -/
theorem anchor_removal_decreases (afqn apath : PyStr)
    (m : List (PyStr × PyStr)) (hmem : (afqn, apath) ∈ m)
    (hsl : '/' ∈ apath) :
    (anchor_removal afqn apath m).length < m.length := by
  have hS2 : 2 ≤ (split_char '/' apath).length := two_le_split_length hsl
  have hSne : split_char '/' apath ≠ [] := split_char_ne_nil '/' apath
  have hdropne : (split_char '/' apath).dropLast ≠ [] := by
    have hlen : (split_char '/' apath).dropLast.length
        = (split_char '/' apath).length - 1 := List.length_dropLast _
    intro hcon
    rw [hcon] at hlen
    simp only [List.length_nil] at hlen
    omega
  have hrecon : apath = join_sep '/' ((split_char '/' apath).dropLast)
      ++ '/' :: (split_char '/' apath).getLast hSne := by
    conv_lhs => rw [← join_split '/' apath]
    conv_lhs => rw [← List.dropLast_append_getLast hSne]
    rw [join_sep_concat '/' _ _ hdropne]
  have hpref_ad : (join_sep '/' ((split_char '/' apath).dropLast) ++ ['/']) <+: apath :=
    ⟨(split_char '/' apath).getLast hSne, by
      rw [List.append_assoc, List.singleton_append]
      exact hrecon.symm⟩
  simp only [anchor_removal]
  split_ifs with h1 h2 h3 h4 h5
  all_goals first
    | exact eraseP_anchor_decreases afqn m (afqn, apath) hmem rfl
    | exact filter_batch_decreases _ afqn apath m hmem hpref_ad
    | simp_all
    | skip
  · -- empty package suffix with the (unreachable) non-empty-root test:
    -- the stripped root is still the whole anchor directory
    rw [List.length_nil, Nat.sub_zero, List.take_length]
    exact filter_batch_decreases _ afqn apath m hmem hpref_ad
  · -- non-empty package suffix present at the end of the anchor directory
    obtain ⟨pre, hpre⟩ := List.isSuffixOf_iff_suffix.mp h4
    have hroot : List.take ((join_sep '/' ((split_char '/' apath).dropLast)).length
        - ('/' :: join_sep '/' ((split_char '.' afqn).dropLast)).length)
        (join_sep '/' ((split_char '/' apath).dropLast)) = pre := by
      conv_lhs => rw [← hpre]
      exact List.take_left' (by rw [List.length_append]; omega)
    rw [hroot]
    apply filter_batch_decreases pre afqn apath m hmem
    refine ⟨join_sep '/' ((split_char '.' afqn).dropLast)
        ++ '/' :: (split_char '/' apath).getLast hSne, ?_⟩
    conv_rhs => rw [hrecon, ← hpre]
    simp [List.append_assoc]

end ArtifactDataNormalizer

/-- C9: for every unprocessed map of `(fqn, path)` class records in which
every path contains a `'/'`, one iteration of the anchor-selection loop of
`_process_single_directory_artifact` strictly shrinks the map — the
selected longest-fqn anchor is always removed, either directly on
package-suffix mismatch or as part of the batch under the discovered
artifact root — hence the loop terminates. -/
theorem relocate_anchor_step_decreases (m : List (PyStr × PyStr))
    (hne : m ≠ []) (hslash : ∀ kv ∈ m, '/' ∈ kv.2) :
    (ArtifactDataNormalizer.relocate_anchor_step m).length < m.length := by
  have hkv : ∃ kv, ArtifactDataNormalizer.max_by_len m = some kv := by
    cases m with
    | nil => exact absurd rfl hne
    | cons a rest =>
        rcases hr : ArtifactDataNormalizer.max_by_len rest with _ | best
        · exact ⟨a, by simp [ArtifactDataNormalizer.max_by_len, hr]⟩
        · by_cases hlt : a.1.length < best.1.length
          · exact ⟨best, by simp [ArtifactDataNormalizer.max_by_len, hr, hlt]⟩
          · exact ⟨a, by simp [ArtifactDataNormalizer.max_by_len, hr, hlt]⟩
  obtain ⟨⟨afqn, apath⟩, hmb⟩ := hkv
  have hmem : (afqn, apath) ∈ m := ArtifactDataNormalizer.max_by_len_mem hmb
  unfold ArtifactDataNormalizer.relocate_anchor_step
  rw [hmb]
  exact ArtifactDataNormalizer.anchor_removal_decreases afqn apath m hmem
    (hslash _ hmem)

/-- Closed witness for C9: a single anchor class `a.B` at
`/r/a/B.class`; its iteration empties the map. -/
theorem relocate_anchor_step_decreases_witness :
    (ArtifactDataNormalizer.relocate_anchor_step
        [(String.toList "a.B", String.toList "/r/a/B.class")]).length
      < [(String.toList "a.B", String.toList "/r/a/B.class")].length :=
  relocate_anchor_step_decreases
    [(String.toList "a.B", String.toList "/r/a/B.class")]
    (by decide) (by decide)

/-! ## Node processor (`node_summary_processor.py`)

The LLM is an oracle `Prompt → Option String` (`None` models a failed or
empty response); every issued prompt is recorded in a trace so that the
number and content of LLM calls can be stated. `PromptManager` assembles
plain strings from its arguments, so prompts are modelled as a datatype
carrying the constructor arguments (quotation marks of the Python
templates are elided). A node item is the Python dict handed to the
processor. -/

/-- `Prompt` values stand for the strings built by `prompt_manager.py`,
one constructor per template, carrying the template arguments. -/
inductive Prompt where
  | method_summary (name : Option String) (code_analysis : String)
      (callers callees : List String)
  | iterative_method_summary (running_summary chunk relation : String)
  | type_summary (name label : Option String) (parents members : List String)
  | iterative_type_summary (name label : Option String)
      (running_summary chunk relation : String)
  | hierarchical (node_type : String) (node_name : Option String)
      (context : String)
  | iterative_hierarchical (node_type : String) (node_name : Option String)
      (running_summary chunk : String)
  deriving Repr, DecidableEq

/-- The Python exception raised when a local variable is read before
assignment on some control path. -/
inductive PyError where
  | unbound_local (var : String)
  deriving Repr, DecidableEq

/-- The `node_data` dict handed to a processor method; absent keys are
`none`, list-valued keys default to `[]` as in `dict.get(key, [])`. -/
structure NodeData where
  id : String := ""
  name : Option String := none
  label : Option String := none
  db_summary : Option String := none
  callers : List String := []
  callees : List String := []
  parent_ids : List String := []
  member_ids : List String := []
  dependency_ids : List String := []
  path : Option String := none
  fqn : Option String := none
  deriving Repr, DecidableEq

/-- The waterfall's per-node outcome dict. -/
structure SummaryResult where
  status : String
  id : String
  summary : String
  deriving Repr, DecidableEq

/-- Python truthiness of an optional string: `None` and `""` are falsy. -/
def truthy : Option String → Bool
  | none => false
  | some s => !(s == "")

/-- Python `str(x)` for an optional string (`None` prints as `"None"`). -/
def py_str : Option String → String
  | some s => s
  | none => "None"

/-- Python `a or b` on optional strings: the first truthy value, else the
second value unchanged. -/
def py_or (a b : Option String) : Option String :=
  if truthy a then a else b

/-- The list comprehension `[s for s in xs if s]`: keep the truthy
strings. -/
def truthy_strings (l : List (Option String)) : List String :=
  l.filterMap (fun o =>
    match o with
    | some s => if s == "" then none else some s
    | none => none)

namespace TokenManager

/-- `chunk_summaries_by_tokens`: greedy packing of whole summaries into
chunks of at most `chunk_size` tokens joined by `"; "`; a single summary
larger than `chunk_size` becomes its own chunk. -/
def chunk_summaries_by_tokens (count : String → Nat) (chunk_size : Nat)
    (summaries : List String) : List String :=
  if summaries.isEmpty then [] else
  let sep_cost := count "; "
  let encoded := summaries.map (fun s => (s, count s))
  let step := fun (acc : List String × List String × Nat) (st : String × Nat) =>
    let chunks := acc.1
    let current_strings := acc.2.1
    let current_token_count := acc.2.2
    if chunk_size < st.2 then
      (if current_strings.isEmpty then chunks ++ [st.1]
       else chunks ++ [String.intercalate "; " current_strings, st.1],
       ([] : List String), 0)
    else
      let cost := if current_strings.isEmpty then st.2 else st.2 + sep_cost
      if chunk_size < current_token_count + cost then
        (chunks ++ [String.intercalate "; " current_strings], [st.1], st.2)
      else
        (chunks, current_strings ++ [st.1], current_token_count + cost)
  let r := encoded.foldl step ([], [], 0)
  if r.2.1.isEmpty then r.1 else r.1 ++ [String.intercalate "; " r.2.1]

end TokenManager

namespace NodeSummaryProcessor

/-- `SummaryCacheManager.get_node_cache`: the cached record for an id, or
an empty dict. -/
def get_node_cache (cache : CacheMap) (node_id : String) : CacheEntry :=
  match cache.find? (fun kv => kv.1 == node_id) with
  | some kv => kv.2
  | none => {}

/-- The common tail of every regenerate branch:
`if new_summary: return {status: regenerated, ...}; return None`. -/
def regen_result (node_id : String) (new_summary : Option String) :
    Option SummaryResult :=
  if truthy new_summary then
    some { status := "regenerated", id := node_id,
           summary := new_summary.getD "" }
  else none

/-- A `for chunk in chunks:` refinement loop: one LLM call per chunk,
threading the previous output as the running summary and aborting on a
falsy response; returns the final running summary and the prompt trace. -/
def fold_chunks (llm : Prompt → Option String) (mk : String → String → Prompt) :
    String → List String → Option String × List Prompt
  | running_summary, [] => (some running_summary, [])
  | running_summary, chunk :: rest =>
    let p := mk running_summary chunk
    let new_summary := llm p
    if truthy new_summary then
      let r := fold_chunks llm mk (new_summary.getD "") rest
      (r.1, p :: r.2)
    else (none, [p])

/-- `_summarize_method_context_iteratively`: fold caller chunks into the
code analysis, then callee chunks into the result. -/
def summarize_method_context_iteratively (llm : Prompt → Option String)
    (count : String → Nat) (max_context : Nat) (code_analysis : String)
    (caller_summaries callee_summaries : List String) :
    Option String × List Prompt :=
  let caller_chunks := TokenManager.chunk_summaries_by_tokens count
      (TokenManager.iterative_chunk_size max_context) caller_summaries
  let r1 := fold_chunks llm
      (fun run c => Prompt.iterative_method_summary run c "callers")
      code_analysis caller_chunks
  match r1.1 with
  | none => (none, r1.2)
  | some run1 =>
    let callee_chunks := TokenManager.chunk_summaries_by_tokens count
        (TokenManager.iterative_chunk_size max_context) callee_summaries
    let r2 := fold_chunks llm
        (fun run c => Prompt.iterative_method_summary run c "callees")
        run1 callee_chunks
    (r2.1, r1.2 ++ r2.2)

/-- The regenerate branch of `get_method_summary` (steps after the two
cache checks): requires a cached `code_analysis`, collects caller and
callee summaries from the cache by the ids listed in the item, and calls
the LLM single-shot or iteratively. -/
def regenerate_method_summary (llm : Prompt → Option String)
    (count : String → Nat) (max_context : Nat) (cache : CacheMap)
    (nd : NodeData) : Option SummaryResult × List Prompt :=
  let code_analysis := (get_node_cache cache nd.id).code_analysis
  if ¬ truthy code_analysis then (none, [])
  else
    let ca := code_analysis.getD ""
    let caller_summaries := truthy_strings
        (nd.callers.map (fun dep_id => (get_node_cache cache dep_id).summary))
    let callee_summaries := truthy_strings
        (nd.callees.map (fun dep_id => (get_node_cache cache dep_id).summary))
    let full_context := String.intercalate " "
        ([ca] ++ caller_summaries ++ callee_summaries)
    let branch : Option String × List Prompt :=
      if count full_context < max_context then
        let p := Prompt.method_summary nd.name ca caller_summaries callee_summaries
        (llm p, [p])
      else
        summarize_method_context_iteratively llm count max_context ca
          caller_summaries callee_summaries
    (regen_result nd.id branch.1, branch.2)

/-- `get_method_summary`: the three-step waterfall for one Method item.
The freshness check uses the method's own id as the dependency list. -/
def get_method_summary (llm : Prompt → Option String) (count : String → Nat)
    (max_context : Nat) (cache : CacheMap) (runtime_changed : List String)
    (nd : NodeData) : Option SummaryResult × List Prompt :=
  let is_stale := SummaryCacheManager.was_dependency_changed runtime_changed [nd.id]
  if truthy nd.db_summary && !is_stale then
    (some { status := "unchanged", id := nd.id,
            summary := nd.db_summary.getD "" }, [])
  else
    let cached_summary := (get_node_cache cache nd.id).summary
    if truthy cached_summary && !is_stale then
      (some { status := "restored", id := nd.id,
              summary := cached_summary.getD "" }, [])
    else
      regenerate_method_summary llm count max_context cache nd

/-- The seed running summary of `_summarize_type_context_iteratively`
(the Python template wraps the name in single quotes, elided here). -/
def type_seed (label name : Option String) : String :=
  "A " ++ py_str label ++ " named " ++ py_str name
    ++ " that serves a purpose to be defined by its relationships."

/-- `_summarize_type_context_iteratively`: fold parent chunks, then
member chunks, into a seeded running summary. -/
def summarize_type_context_iteratively (llm : Prompt → Option String)
    (count : String → Nat) (max_context : Nat) (nd : NodeData)
    (parent_summaries member_summaries : List String) :
    Option String × List Prompt :=
  let parent_chunks := TokenManager.chunk_summaries_by_tokens count
      (TokenManager.iterative_chunk_size max_context) parent_summaries
  let r1 := fold_chunks llm
      (fun run c => Prompt.iterative_type_summary nd.name nd.label run c "parents")
      (type_seed nd.label nd.name) parent_chunks
  match r1.1 with
  | none => (none, r1.2)
  | some run1 =>
    let member_chunks := TokenManager.chunk_summaries_by_tokens count
        (TokenManager.iterative_chunk_size max_context) member_summaries
    let r2 := fold_chunks llm
        (fun run c => Prompt.iterative_type_summary nd.name nd.label run c "members")
        run1 member_chunks
    (r2.1, r1.2 ++ r2.2)

/-- The regenerate branch of `get_type_summary`: collect parent and
member summaries from the cache and call the LLM single-shot or
iteratively. -/
def regenerate_type_summary (llm : Prompt → Option String)
    (count : String → Nat) (max_context : Nat) (cache : CacheMap)
    (nd : NodeData) : Option SummaryResult × List Prompt :=
  let parent_summaries := truthy_strings
      (nd.parent_ids.map (fun dep_id => (get_node_cache cache dep_id).summary))
  let member_summaries := truthy_strings
      (nd.member_ids.map (fun dep_id => (get_node_cache cache dep_id).summary))
  let full_context := String.intercalate " " (parent_summaries ++ member_summaries)
  let branch : Option String × List Prompt :=
    if count full_context < max_context then
      let p := Prompt.type_summary nd.name nd.label parent_summaries member_summaries
      (llm p, [p])
    else
      summarize_type_context_iteratively llm count max_context nd
        parent_summaries member_summaries
  (regen_result nd.id branch.1, branch.2)

/-- `get_type_summary`: the three-step waterfall for one Type item; the
dependency list is `parent_ids + member_ids`. -/
def get_type_summary (llm : Prompt → Option String) (count : String → Nat)
    (max_context : Nat) (cache : CacheMap) (runtime_changed : List String)
    (nd : NodeData) : Option SummaryResult × List Prompt :=
  let is_stale := SummaryCacheManager.was_dependency_changed runtime_changed
      (nd.parent_ids ++ nd.member_ids)
  if truthy nd.db_summary && !is_stale then
    (some { status := "unchanged", id := nd.id,
            summary := nd.db_summary.getD "" }, [])
  else
    let cached_summary := (get_node_cache cache nd.id).summary
    if truthy cached_summary && !is_stale then
      (some { status := "restored", id := nd.id,
              summary := cached_summary.getD "" }, [])
    else
      regenerate_type_summary llm count max_context cache nd

/-- The seed running summary of `_summarize_hierarchical_iteratively`
(single quotes of the Python template elided). -/
def hierarchical_seed (node_type : String) (node_name : Option String) : String :=
  "A " ++ node_type ++ " named " ++ py_str node_name
    ++ " that serves a purpose to be defined by its contents."

/-- `_summarize_hierarchical_iteratively`: fold child-summary chunks into
a seeded running summary. -/
def summarize_hierarchical_iteratively (llm : Prompt → Option String)
    (count : String → Nat) (max_context : Nat) (nd : NodeData)
    (node_type : String) (child_summaries : List String) :
    Option String × List Prompt :=
  let node_name := py_or nd.path (py_or nd.fqn nd.name)
  let child_chunks := TokenManager.chunk_summaries_by_tokens count
      (TokenManager.iterative_chunk_size max_context) child_summaries
  fold_chunks llm
    (fun run c => Prompt.iterative_hierarchical node_type node_name run c)
    (hierarchical_seed node_type node_name) child_chunks

/-- The regenerate branch of `get_hierarchical_summary`. The source picks
a branch (single-shot LLM call, or iterative folding which leaves the
local `prompt` unassigned) and then unconditionally runs
`new_summary = self.llm_client.generate_summary(prompt)` once more
(`node_summary_processor.py:455`): on the single-shot path this issues a
second, identical LLM call whose output replaces the first; on the
iterative path reading `prompt` raises `UnboundLocalError`. -/
def regenerate_hierarchical_summary (llm : Prompt → Option String)
    (count : String → Nat) (max_context : Nat) (cache : CacheMap)
    (nd : NodeData) (node_type : String) :
    Except PyError (Option SummaryResult) × List Prompt :=
  let child_summaries := truthy_strings
      (nd.dependency_ids.map (fun dep_id => (get_node_cache cache dep_id).summary))
  if child_summaries.isEmpty then (Except.ok none, [])
  else
    let full_context := String.intercalate " " child_summaries
    let branch : Option Prompt × List Prompt :=
      if count full_context < max_context then
        let context := String.intercalate "; " child_summaries
        let node_name := py_or nd.path (py_or nd.fqn nd.name)
        let p := Prompt.hierarchical node_type node_name context
        -- first call: its result is bound to new_summary but immediately
        -- overwritten at line 455
        (some p, [p])
      else
        let r := summarize_hierarchical_iteratively llm count max_context nd
            node_type child_summaries
        (none, r.2)
    match branch.1 with
    | none => (Except.error (PyError.unbound_local "prompt"), branch.2)
    | some p =>
      let new_summary := llm p
      (Except.ok (regen_result nd.id new_summary), branch.2 ++ [p])

/-- `get_hierarchical_summary`: delegate Type nodes to the type waterfall,
otherwise run the three-step waterfall with `dependency_ids` as the
dependency list; the regenerate branch carries the line-455 defect. -/
def get_hierarchical_summary (llm : Prompt → Option String)
    (count : String → Nat) (max_context : Nat) (cache : CacheMap)
    (runtime_changed : List String) (nd : NodeData) (node_type : String) :
    Except PyError (Option SummaryResult) × List Prompt :=
  if node_type == "Type" then
    let r := get_type_summary llm count max_context cache runtime_changed nd
    (Except.ok r.1, r.2)
  else
    let is_stale := SummaryCacheManager.was_dependency_changed runtime_changed
        nd.dependency_ids
    if truthy nd.db_summary && !is_stale then
      (Except.ok (some { status := "unchanged", id := nd.id,
                         summary := nd.db_summary.getD "" }), [])
    else
      let cached_summary := (get_node_cache cache nd.id).summary
      if truthy cached_summary && !is_stale then
        (Except.ok (some { status := "restored", id := nd.id,
                           summary := cached_summary.getD "" }), [])
      else
        regenerate_hierarchical_summary llm count max_context cache nd node_type

end NodeSummaryProcessor

/-! ## Method summarizer items query (`method_summarizer.py`) -/

/-- A Method node as stored in the graph. -/
structure MethodNode where
  entity_id : String
  name : String
  code_analysis : Option String := none
  summary : Option String := none
  deriving Repr, DecidableEq

/-- The Method subgraph read by the method-summary pass: Method nodes and
`INVOKES` edges given as `(caller entity_id, callee entity_id)` pairs. -/
structure MethodGraph where
  methods : List MethodNode
  invokes : List (String × String)
  deriving Repr, DecidableEq

namespace MethodSummarizer

/-- `MethodSummarizer._get_items_query`: for every Method with a
`code_analysis`, return its entity id, name and db summary together with
`collect(DISTINCT caller.name)` and `collect(DISTINCT callee.name)` over
the `INVOKES` edges — the collected values are the related methods'
names, not their entity ids. -/
def get_items_query (g : MethodGraph) : List NodeData :=
  (g.methods.filter (fun m => m.code_analysis.isSome)).map (fun m =>
    { id := m.entity_id,
      name := some m.name,
      db_summary := m.summary,
      callers := ((g.methods.filter
          (fun c => g.invokes.contains (c.entity_id, m.entity_id))).map
            (fun c => c.name)).dedup,
      callees := ((g.methods.filter
          (fun c => g.invokes.contains (m.entity_id, c.entity_id))).map
            (fun c => c.name)).dedup })

end MethodSummarizer

namespace NodeSummaryProcessor

/-- Any result produced by the shared regenerate tail carries status
`regenerated`. -/
theorem regen_result_status {node_id : String} {s : Option String}
    {r : SummaryResult} (h : regen_result node_id s = some r) :
    r.status = "regenerated" := by
  unfold regen_result at h
  split_ifs at h
  · cases h
    rfl

/-- Any non-`None` result of the method regenerate branch carries status
`regenerated`. -/
theorem regenerate_method_summary_status
    (llm : Prompt → Option String) (count : String → Nat) (max_context : Nat)
    (cache : CacheMap) (nd : NodeData) (r : SummaryResult)
    (h : (regenerate_method_summary llm count max_context cache nd).1 = some r) :
    r.status = "regenerated" := by
  simp only [regenerate_method_summary] at h
  split at h
  · cases h
  · exact regen_result_status h

/-- Any non-`None` result of the type regenerate branch carries status
`regenerated`. -/
theorem regenerate_type_summary_status
    (llm : Prompt → Option String) (count : String → Nat) (max_context : Nat)
    (cache : CacheMap) (nd : NodeData) (r : SummaryResult)
    (h : (regenerate_type_summary llm count max_context cache nd).1 = some r) :
    r.status = "regenerated" := by
  simp only [regenerate_type_summary] at h
  exact regen_result_status h

/-- Any non-`None`, non-crashing result of the hierarchical regenerate
branch carries status `regenerated`. -/
theorem regenerate_hierarchical_summary_status
    (llm : Prompt → Option String) (count : String → Nat) (max_context : Nat)
    (cache : CacheMap) (nd : NodeData) (node_type : String) (r : SummaryResult)
    (h : (regenerate_hierarchical_summary llm count max_context cache
        nd node_type).1 = Except.ok (some r)) :
    r.status = "regenerated" := by
  simp only [regenerate_hierarchical_summary] at h
  split at h
  · exact absurd (Except.ok.inj h) (fun hc => Option.noConfusion hc)
  · split at h
    · cases h
    · exact regen_result_status (Except.ok.inj h)

end NodeSummaryProcessor

/-- C7: in all three waterfalls (method, type, hierarchical), when the
node's dependency set contains an id marked changed this run, branches 1
and 2 are skipped, so any non-`None` result returned carries status
`regenerated` — never `unchanged` or `restored`. -/
theorem waterfall_dependency_freshness :
    (∀ (llm : Prompt → Option String) (count : String → Nat)
        (max_context : Nat) (cache : CacheMap) (runtime_changed : List String)
        (nd : NodeData) (r : SummaryResult),
      SummaryCacheManager.was_dependency_changed runtime_changed [nd.id] = true →
      (NodeSummaryProcessor.get_method_summary llm count max_context cache
          runtime_changed nd).1 = some r →
      r.status = "regenerated") ∧
    (∀ (llm : Prompt → Option String) (count : String → Nat)
        (max_context : Nat) (cache : CacheMap) (runtime_changed : List String)
        (nd : NodeData) (r : SummaryResult),
      SummaryCacheManager.was_dependency_changed runtime_changed
          (nd.parent_ids ++ nd.member_ids) = true →
      (NodeSummaryProcessor.get_type_summary llm count max_context cache
          runtime_changed nd).1 = some r →
      r.status = "regenerated") ∧
    (∀ (llm : Prompt → Option String) (count : String → Nat)
        (max_context : Nat) (cache : CacheMap) (runtime_changed : List String)
        (nd : NodeData) (node_type : String) (r : SummaryResult),
      node_type ≠ "Type" →
      SummaryCacheManager.was_dependency_changed runtime_changed
          nd.dependency_ids = true →
      (NodeSummaryProcessor.get_hierarchical_summary llm count max_context cache
          runtime_changed nd node_type).1 = Except.ok (some r) →
      r.status = "regenerated") := by
  refine ⟨?_, ?_, ?_⟩
  · intro llm count max_context cache runtime_changed nd r hstale h
    simp only [NodeSummaryProcessor.get_method_summary, hstale, Bool.not_true,
      Bool.and_false, Bool.false_eq_true, if_false] at h
    exact NodeSummaryProcessor.regenerate_method_summary_status
      llm count max_context cache nd r h
  · intro llm count max_context cache runtime_changed nd r hstale h
    simp only [NodeSummaryProcessor.get_type_summary, hstale, Bool.not_true,
      Bool.and_false, Bool.false_eq_true, if_false] at h
    exact NodeSummaryProcessor.regenerate_type_summary_status
      llm count max_context cache nd r h
  · intro llm count max_context cache runtime_changed nd node_type r hty hstale h
    have hbeq : (node_type == "Type") = false := beq_eq_false_iff_ne.mpr hty
    simp only [NodeSummaryProcessor.get_hierarchical_summary, hbeq, hstale,
      Bool.not_true, Bool.and_false, Bool.false_eq_true, if_false] at h
    exact NodeSummaryProcessor.regenerate_hierarchical_summary_status
      llm count max_context cache nd node_type r h

/-- A deterministic LLM oracle answering every prompt with `"OUT"`. -/
def oracle_llm : Prompt → Option String := fun _ => some "OUT"

/-- Closed witness for C7: a method whose own id is marked changed is
regenerated from its cached code analysis. -/
theorem waterfall_dependency_freshness_witness :
    SummaryResult.status
        { status := "regenerated", id := "m1", summary := "OUT" }
      = "regenerated" :=
  waterfall_dependency_freshness.1 oracle_llm (fun _ => 0) 8192
    [("m1", { code_analysis := some "A" })] ["m1"]
    { id := "m1", db_summary := some "old" }
    { status := "regenerated", id := "m1", summary := "OUT" }
    (by decide) (by decide)

/-- A Directory item with one child summary `"S1"` cached under id
`"f1"`, reaching the regenerate branch (no db summary, no cached
summary). -/
def dir_node : NodeData :=
  { id := "d1", dependency_ids := ["f1"], path := some "/proj/dir" }

/-- The cache backing `dir_node`. -/
def dir_cache : CacheMap := [("f1", { summary := some "S1" })]

/-- C3: the regenerate branch of `get_hierarchical_summary` does not
behave as specified. When the joined child context fits within
`max_context`, the processor issues the single-shot LLM call **twice**
(the duplicated `generate_summary(prompt)` at
`node_summary_processor.py:455`), returning the second call's output;
when the context does not fit, the iterative folding runs but the
duplicated line then reads the unassigned local `prompt` and raises
`UnboundLocalError` instead of returning the folded summary. -/
theorem hierarchical_regenerate_defect :
    (NodeSummaryProcessor.get_hierarchical_summary oracle_llm (fun _ => 0) 8192
        dir_cache [] dir_node "Directory").2
      = [Prompt.hierarchical "Directory" (some "/proj/dir") "S1",
         Prompt.hierarchical "Directory" (some "/proj/dir") "S1"] ∧
    (NodeSummaryProcessor.get_hierarchical_summary oracle_llm (fun _ => 0) 8192
        dir_cache [] dir_node "Directory").1
      = Except.ok (some { status := "regenerated", id := "d1", summary := "OUT" }) ∧
    (NodeSummaryProcessor.get_hierarchical_summary oracle_llm (fun _ => 10000) 8192
        dir_cache [] dir_node "Directory").1
      = Except.error (PyError.unbound_local "prompt") :=
  ⟨rfl, rfl, rfl⟩

/-- A graph with one analysed method `m` (entity id `em`) and one caller
`caller_method` (entity id `ec`) related by `INVOKES`. -/
def inv_graph : MethodGraph :=
  { methods := [{ entity_id := "em", name := "m", code_analysis := some "CA" },
                { entity_id := "ec", name := "caller_method" }],
    invokes := [("ec", "em")] }

/-- The cache backing `inv_graph`: the method's analysis under `em`, the
caller's summary under its entity id `ec`. -/
def inv_cache : CacheMap :=
  [("em", { code_analysis := some "A" }), ("ec", { summary := some "S" })]

/-- C4: the method-summary pass looks callers and callees up by **name**,
not by entity id. `_get_items_query` collects `caller.name` /
`callee.name`, and `get_method_summary` uses those values as cache keys;
since the cache is keyed by entity id, the caller's cached summary `"S"`
(stored under `"ec"`) is missed and the prompt is built with empty caller
and callee summary lists, while the entity-id lookup the spec describes
would have supplied `["S"]`. -/
theorem method_summary_name_lookup_defect :
    MethodSummarizer.get_items_query inv_graph
      = [{ id := "em", name := some "m", db_summary := none,
           callers := ["caller_method"], callees := [] }] ∧
    (NodeSummaryProcessor.get_method_summary oracle_llm (fun _ => 0) 8192
        inv_cache []
        { id := "em", name := some "m", db_summary := none,
          callers := ["caller_method"], callees := [] }).2
      = [Prompt.method_summary (some "m") "A" [] []] ∧
    truthy_strings
        [(NodeSummaryProcessor.get_node_cache inv_cache "ec").summary]
      = ["S"] := by
  decide

/-! ## Basic normalization (`graph_basic_normalizer.py`)

`add_absolute_paths` executes a single Cypher statement over root
`:Directory` nodes (line 38) and then `return`s (line 53); the
artifact-specific queries below that return statement are dead code (and
even they only match `Artifact&Directory`, never archive artifacts). -/

/-- A filesystem node of the scanned graph. -/
structure FsNode where
  id : Nat
  labels : List String
  fileName : Option String := none
  absolute_path : Option String := none
  deriving Repr, DecidableEq

/-- The filesystem part of the graph: nodes plus `CONTAINS` edges given
as `(parent id, child id)` pairs. -/
structure FsGraph where
  nodes : List FsNode
  contains : List (Nat × Nat)
  deriving Repr, DecidableEq

namespace GraphBasicNormalizer

/-- Cypher `+` on possibly-null strings: null propagates. -/
def opt_concat : Option String → Option String → Option String
  | some a, some b => some (a ++ b)
  | _, _ => none

/-- The `MATCH (e:Directory) WHERE NOT EXISTS { (:Directory)-[:CONTAINS]->(e) }`
pattern: a Directory node not contained by any Directory. -/
def is_root_directory (g : FsGraph) (n : FsNode) : Bool :=
  n.labels.contains "Directory" &&
  !(g.contains.any (fun e =>
      e.2 == n.id && g.nodes.any (fun p =>
        p.id == e.1 && p.labels.contains "Directory")))

/-- The root Directory nodes that directly `CONTAINS` a given node. -/
def root_parents (g : FsGraph) (c : FsNode) : List FsNode :=
  g.nodes.filter (fun e =>
    is_root_directory g e && g.contains.contains (e.id, c.id))

/-- The single live query of `add_absolute_paths`: set
`absolute_path = fileName` on every root Directory, and
`absolute_path = root.absolute_path + fileName` on every `:File` child it
directly contains (a root Directory has no Directory parent, so it is
never itself such a child; when several roots contain the same child the
last matched row wins, determinised here as the last root in node-list
order). The code then returns - archive artifacts and their contents are
never touched. -/
def add_absolute_paths (g : FsGraph) : FsGraph :=
  { g with nodes := g.nodes.map (fun n =>
      if is_root_directory g n then { n with absolute_path := n.fileName }
      else if n.labels.contains "File" then
        match (root_parents g n).getLast? with
        | some e => { n with absolute_path := opt_concat e.fileName n.fileName }
        | none => n
      else n) }

end GraphBasicNormalizer

/-- A graph holding a single archive artifact (`:File:Archive:Jar:Artifact`,
not a `:Directory`) with `fileName = "/a.jar"`. -/
def jar_graph : FsGraph :=
  { nodes := [{ id := 0, labels := ["File", "Archive", "Jar", "Artifact"],
                fileName := some "/a.jar" }],
    contains := [] }

/-- C6 counterexample: after the Add Absolute Paths pass, the archive
Artifact of `jar_graph` still has no `absolute_path` at all — the pass
only processes root `:Directory` nodes and their direct `:File` children,
so `absolute_path = fileName` fails for archive artifacts. -/
theorem add_absolute_paths_misses_archive_artifact :
    (GraphBasicNormalizer.add_absolute_paths jar_graph).nodes
      = [{ id := 0, labels := ["File", "Archive", "Jar", "Artifact"],
           fileName := some "/a.jar", absolute_path := none }] ∧
    ((GraphBasicNormalizer.add_absolute_paths jar_graph).nodes.all
      (fun n => n.labels.contains "Artifact"
        && !(n.absolute_path == n.fileName))) = true := by
  decide

/-- C6 amended: the pass establishes invariant I1 only for root-Directory
trees: every root Directory (a Directory with no Directory parent) gets
`absolute_path = fileName`; every `:File` node directly contained by root
Directories gets `absolute_path = root.fileName + fileName` for the last
such root in match order; every other node — archive Artifacts and
everything inside them included — is left unchanged. -/
theorem add_absolute_paths_spec (g : FsGraph) (n : FsNode) (hn : n ∈ g.nodes) :
    (GraphBasicNormalizer.is_root_directory g n = true →
      { n with absolute_path := n.fileName }
        ∈ (GraphBasicNormalizer.add_absolute_paths g).nodes) ∧
    (GraphBasicNormalizer.is_root_directory g n = false →
      n.labels.contains "File" = true →
      ∀ e, (GraphBasicNormalizer.root_parents g n).getLast? = some e →
        { n with absolute_path :=
            GraphBasicNormalizer.opt_concat e.fileName n.fileName }
          ∈ (GraphBasicNormalizer.add_absolute_paths g).nodes) ∧
    (GraphBasicNormalizer.is_root_directory g n = false →
      (n.labels.contains "File" = false ∨
        (GraphBasicNormalizer.root_parents g n).getLast? = none) →
      n ∈ (GraphBasicNormalizer.add_absolute_paths g).nodes) := by
  refine ⟨?_, ?_, ?_⟩
  · intro hroot
    unfold GraphBasicNormalizer.add_absolute_paths
    refine List.mem_map.mpr ⟨n, hn, ?_⟩
    simp [hroot]
  · intro hroot hfile e hlast
    unfold GraphBasicNormalizer.add_absolute_paths
    refine List.mem_map.mpr ⟨n, hn, ?_⟩
    have hfm : "File" ∈ n.labels := by simpa using hfile
    simp [hroot, hfm, hlast]
  · intro hroot hother
    unfold GraphBasicNormalizer.add_absolute_paths
    refine List.mem_map.mpr ⟨n, hn, ?_⟩
    rcases hother with hfile | hnone
    · have hfm : "File" ∉ n.labels := by simpa using hfile
      simp [hroot, hfm]
    · by_cases hfile : n.labels.contains "File" = true
      · have hfm : "File" ∈ n.labels := by simpa using hfile
        simp [hroot, hfm, hnone]
      · have hfm : "File" ∉ n.labels := by simpa using hfile
        simp [hroot, hfm]

/-- Closed witness for the amended C6: the untouched archive artifact of
`jar_graph` (neither a root Directory nor a File child of one). -/
theorem add_absolute_paths_spec_witness :
    ({ id := 0, labels := ["File", "Archive", "Jar", "Artifact"],
       fileName := some "/a.jar" } : FsNode)
      ∈ (GraphBasicNormalizer.add_absolute_paths jar_graph).nodes :=
  (add_absolute_paths_spec jar_graph
      { id := 0, labels := ["File", "Archive", "Jar", "Artifact"],
        fileName := some "/a.jar" } (by decide)).2.2 (by decide)
    (Or.inr (by decide))

/-! ## Entity identifiers (`graph_entity_setter.py`)

`create_entities_and_stable_ids` first creates the uniqueness constraint
and then runs four `SET` queries. Each query is modelled as the list of
`SET`-row operations it produces; the row order of a Cypher `MATCH` is
unspecified, so the operation lists are derived from the (arbitrary)
order of the graph's node list, and two list representations related by a
permutation stand for two runs over the same graph state. `apoc.util.md5`
is modelled as an injective encoding of the key parts (hash collisions
are ignored). -/

/-- A node of the normalized graph as the entity-setter pass sees it. -/
structure GNode where
  nid : Nat
  labels : List String
  fileName : Option String := none
  signature : Option String := none
  absolute_path : Option String := none
  entity_id : Option String := none
  deriving Repr, DecidableEq

/-- The graph: nodes plus `CONTAINS` and `DECLARES` edges as
`(parent nid, child nid)` pairs. -/
structure PGraph where
  nodes : List GNode
  contains : List (Nat × Nat)
  declares : List (Nat × Nat)
  deriving Repr, DecidableEq

namespace GraphEntitySetter

/-- `apoc.util.md5`, modelled as an injective encoding of the key. -/
def apoc_md5 (parts : List String) : String :=
  String.intercalate "\x1f" parts

/-- The Cypher string value of a possibly-null property inside a key. -/
def cy_str (o : Option String) : String := o.getD "null"

/-- One write operation of the pass: the constraint creation, or one
`SET n:Entity, n.entity_id = apoc.util.md5(key)` row. -/
inductive EntityOp where
  | create_constraint
  | set_entity (nid : Nat) (key : List String)
  deriving Repr, DecidableEq

/-- `MATCH (a:Artifact) WHERE a.fileName IS NOT NULL`. -/
def is_artifact_row (n : GNode) : Bool :=
  n.labels.contains "Artifact" && n.fileName.isSome

/-- The `File OR Directory OR Package OR Type` disjunction of query 4. -/
def is_file_like (n : GNode) : Bool :=
  (n.labels.contains "File" || n.labels.contains "Directory"
    || n.labels.contains "Package" || n.labels.contains "Type")
  && n.fileName.isSome

/-- Query 2 rows: `Project` nodes keyed `["Project://", absolute_path]`. -/
def project_ops (g : PGraph) : List EntityOp :=
  (g.nodes.filter (fun p => p.labels.contains "Project")).map
    (fun p => EntityOp.set_entity p.nid ["Project://", cy_str p.absolute_path])

/-- Query 3 rows: `Artifact` nodes keyed `[fileName]`. -/
def artifact_ops (g : PGraph) : List EntityOp :=
  (g.nodes.filter is_artifact_row).map
    (fun a => EntityOp.set_entity a.nid [cy_str a.fileName])

/-- Query 4 rows: `(a:Artifact)-[:CONTAINS]->(n)` with `n` a
File/Directory/Package/Type, keyed `[a.fileName, n.fileName]`. -/
def file_like_ops (g : PGraph) : List EntityOp :=
  (g.nodes.filter is_artifact_row).flatMap (fun a =>
    (g.nodes.filter (fun n =>
        is_file_like n && g.contains.contains (a.nid, n.nid))).map
      (fun n => EntityOp.set_entity n.nid [cy_str a.fileName, cy_str n.fileName]))

/-- Query 5 rows:
`(a:Artifact)-[:CONTAINS]->(t:Type)-[:DECLARES]->(m:Member)`, keyed
`[a.fileName, t.fileName, m.signature]`. -/
def member_ops (g : PGraph) : List EntityOp :=
  (g.nodes.filter is_artifact_row).flatMap (fun a =>
    (g.nodes.filter (fun t => t.labels.contains "Type" && t.fileName.isSome
        && g.contains.contains (a.nid, t.nid))).flatMap (fun t =>
      (g.nodes.filter (fun m => m.labels.contains "Member" && m.signature.isSome
          && g.declares.contains (t.nid, m.nid))).map
        (fun m => EntityOp.set_entity m.nid
          [cy_str a.fileName, cy_str t.fileName, cy_str m.signature])))

/-- The full operation trace of `create_entities_and_stable_ids`: the
constraint first, then the four queries in source order. -/
def create_entities_ops (g : PGraph) : List EntityOp :=
  EntityOp.create_constraint ::
    (project_ops g ++ artifact_ops g ++ file_like_ops g ++ member_ops g)

/-- Apply one operation: a `SET` row overwrites `entity_id` of every node
with the targeted nid (a later row targeting the same node wins). -/
def apply_op (g : PGraph) (op : EntityOp) : PGraph :=
  match op with
  | EntityOp.create_constraint => g
  | EntityOp.set_entity nid key =>
    { g with nodes := g.nodes.map (fun n =>
        if n.nid == nid then { n with entity_id := some (apoc_md5 key) } else n) }

/-- The whole pass: fold the operation trace over the graph. -/
def create_entities_and_stable_ids (g : PGraph) : PGraph :=
  (create_entities_ops g).foldl apply_op g

/-- The `entity_id` of the first node carrying a given nid. -/
def lookup_entity_id : List GNode → Nat → Option String
  | [], _ => none
  | x :: xs, i => if x.nid == i then x.entity_id else lookup_entity_id xs i

/-- The `entity_id` of the node with a given nid (first match). -/
def node_entity_id (g : PGraph) (nid : Nat) : Option String :=
  lookup_entity_id g.nodes nid

/-- The keys of the `SET` rows of an operation list that target a nid,
in row order. -/
def keys_for (ops : List EntityOp) (nid : Nat) : List (List String) :=
  ops.filterMap (fun op => match op with
    | EntityOp.set_entity n k => if n == nid then some k else none
    | EntityOp.create_constraint => none)

end GraphEntitySetter

/-- Two artifacts, one (`/r/s`) nested inside the subtree of the other
(`/r`), both containing the directory node 3 — the shape produced by
nested promoted roots. -/
def nested_g1 : PGraph :=
  { nodes := [{ nid := 1, labels := ["Artifact", "Directory"], fileName := some "/r" },
              { nid := 2, labels := ["Artifact", "Directory"], fileName := some "/r/s" },
              { nid := 3, labels := ["Directory"], fileName := some "/r/s/x" }],
    contains := [(1, 3), (2, 3), (1, 2)],
    declares := [] }

/-- The same graph state as `nested_g1` with the two artifacts listed in
the opposite order. -/
def nested_g2 : PGraph :=
  { nodes := [{ nid := 2, labels := ["Artifact", "Directory"], fileName := some "/r/s" },
              { nid := 1, labels := ["Artifact", "Directory"], fileName := some "/r" },
              { nid := 3, labels := ["Directory"], fileName := some "/r/s/x" }],
    contains := [(1, 3), (2, 3), (1, 2)],
    declares := [] }

/-- C8 counterexample: `nested_g1` and `nested_g2` are the same graph
state (the node lists are permutations of each other, the edges are
identical), yet the two runs assign node 3 different entity ids — the
`SET` of query 4 fires once per containing artifact and the last
(order-dependent) row wins, so the pass is not deterministic on graphs
where a node is contained by two artifacts. -/
theorem create_entities_order_dependent :
    nested_g1.nodes.Perm nested_g2.nodes ∧
    nested_g1.contains = nested_g2.contains ∧
    nested_g1.declares = nested_g2.declares ∧
    GraphEntitySetter.node_entity_id
        (GraphEntitySetter.create_entities_and_stable_ids nested_g1) 3
      ≠ GraphEntitySetter.node_entity_id
        (GraphEntitySetter.create_entities_and_stable_ids nested_g2) 3 := by
  refine ⟨?_, rfl, rfl, ?_⟩
  · decide
  · decide

namespace GraphEntitySetter

/-- Applying an operation neither adds nor removes nodes with a given
nid. -/
theorem apply_op_presence (g : PGraph) (op : EntityOp) (i : Nat) :
    ((apply_op g op).nodes.any (fun n => n.nid == i))
      = (g.nodes.any (fun n => n.nid == i)) := by
  cases op with
  | create_constraint => rfl
  | set_entity n k =>
      simp only [apply_op]
      induction g.nodes with
      | nil => rfl
      | cons x xs ih =>
          simp only [List.map_cons, List.any_cons, ih]
          by_cases hx : x.nid = n <;> simp [hx]

/-- The whole operation fold neither adds nor removes nodes with a given
nid. -/
theorem foldl_presence (ops : List EntityOp) (g : PGraph) (i : Nat) :
    (((ops.foldl apply_op g).nodes.any (fun n => n.nid == i)))
      = (g.nodes.any (fun n => n.nid == i)) := by
  induction ops generalizing g with
  | nil => rfl
  | cons op ops ih => rw [List.foldl_cons, ih, apply_op_presence]

/-- A `SET` row targeting a different nid leaves a node's looked-up
`entity_id` unchanged. -/
theorem node_entity_id_set_other (g : PGraph) (n : Nat) (k : List String)
    (i : Nat) (h : (n == i) = false) :
    node_entity_id (apply_op g (EntityOp.set_entity n k)) i
      = node_entity_id g i := by
  have hni : n ≠ i := by simpa using h
  simp only [node_entity_id, apply_op, beq_iff_eq]
  induction g.nodes with
  | nil => rfl
  | cons x xs ih =>
      rw [List.map_cons]
      by_cases hx : x.nid = n
      · have hxi : ¬ x.nid = i := by rw [hx]; exact hni
        simp [lookup_entity_id, hx, hxi, hni, ih]
      · by_cases hxi : x.nid = i
        · simp [lookup_entity_id, hx, hxi, hni, hni.symm]
        · simp [lookup_entity_id, hx, hxi, hni, hni.symm, ih]

/-- Setting the entity id of a nid present in a node list overwrites the
looked-up `entity_id` with the md5 of the key. -/
theorem lookup_map_set_self (n : Nat) (k : List String) :
    ∀ l : List GNode, l.any (fun x => x.nid == n) = true →
      lookup_entity_id (l.map (fun x =>
        if x.nid == n then { x with entity_id := some (apoc_md5 k) } else x)) n
        = some (apoc_md5 k) := by
  intro l
  induction l with
  | nil => intro hp; exact absurd hp (by simp)
  | cons x xs ih =>
      intro hp
      rw [List.map_cons]
      by_cases hx : x.nid = n
      · have hxb : (x.nid == n) = true := by simpa using hx
        simp [lookup_entity_id, hxb, hx]
      · have hxb : (x.nid == n) = false := by simpa using hx
        have hp2 : xs.any (fun x => x.nid == n) = true := by
          simp only [List.any_cons] at hp
          rcases Bool.or_eq_true_iff.mp hp with h1 | h1
          · exact absurd (by simpa using h1) hx
          · exact h1
        have hfx : ((if x.nid == n then { x with entity_id := some (apoc_md5 k) }
            else x) : GNode) = x := by rw [hxb]; simp
        rw [hfx]
        simp only [lookup_entity_id, hxb, Bool.false_eq_true, if_false]
        exact ih hp2

/-- A `SET` row targeting a nid present in the graph overwrites that
node's looked-up `entity_id` with the md5 of the row's key. -/
theorem node_entity_id_set_self (g : PGraph) (n : Nat) (k : List String)
    (i : Nat) (h : (n == i) = true)
    (hp : g.nodes.any (fun x => x.nid == i) = true) :
    node_entity_id (apply_op g (EntityOp.set_entity n k)) i
      = some (apoc_md5 k) := by
  have hni : n = i := by simpa using h
  subst hni
  simp only [node_entity_id, apply_op]
  exact lookup_map_set_self n k g.nodes hp

/-- Last-write characterization of the fold: after applying an operation
list, the `entity_id` of a present node is the md5 of the **last** key
targeting it, or its original value when no row targets it. -/
theorem foldl_entity_id_char (ops : List EntityOp) (g : PGraph) (i : Nat)
    (hp : g.nodes.any (fun n => n.nid == i) = true) :
    node_entity_id (ops.foldl apply_op g) i =
      (match (keys_for ops i).getLast? with
       | some k => some (apoc_md5 k)
       | none => node_entity_id g i) := by
  induction ops generalizing g with
  | nil => rfl
  | cons op ops ih =>
      cases op with
      | create_constraint =>
          rw [List.foldl_cons]
          exact ih g hp
      | set_entity n k =>
          rw [List.foldl_cons]
          have hp' : (apply_op g (EntityOp.set_entity n k)).nodes.any
              (fun x => x.nid == i) = true := by
            rw [apply_op_presence]; exact hp
          by_cases hn : (n == i) = true
          · have hne : n = i := by simpa using hn
            have hkeys : keys_for (EntityOp.set_entity n k :: ops) i
                = k :: keys_for ops i := by
              simp [keys_for, hne]
            rw [hkeys, ih _ hp']
            cases htail : (keys_for ops i).getLast? with
            | some k' =>
                have hcons : (k :: keys_for ops i).getLast? = some k' := by
                  cases hK : keys_for ops i with
                  | nil => rw [hK] at htail; cases htail
                  | cons a as =>
                      rw [hK] at htail
                      rw [List.getLast?_cons_cons, htail]
                rw [hcons]
            | none =>
                have hK : keys_for ops i = [] :=
                  List.getLast?_eq_none_iff.mp htail
                rw [hK]
                exact node_entity_id_set_self g n k i hn hp
          · have hnf : (n == i) = false := by
              cases hnn : (n == i) with
              | true => exact absurd hnn hn
              | false => rfl
            have hne : n ≠ i := by simpa using hnf
            have hkeys : keys_for (EntityOp.set_entity n k :: ops) i
                = keys_for ops i := by
              simp [keys_for, hne]
            rw [hkeys, ih _ hp']
            cases htail : (keys_for ops i).getLast? with
            | some k' => rfl
            | none => exact node_entity_id_set_other g n k i hnf

end GraphEntitySetter

namespace GraphEntitySetter

/-- Two lists with the same members, all of which are equal to each
other, have the same last element. -/
theorem getLast?_eq_of_mem_iff {α : Type} {L1 L2 : List α}
    (hmem : ∀ x, x ∈ L1 ↔ x ∈ L2)
    (huniq : ∀ x y, x ∈ L1 → y ∈ L1 → x = y) :
    L1.getLast? = L2.getLast? := by
  cases h1 : L1.getLast? with
  | none =>
      have hL1 : L1 = [] := List.getLast?_eq_none_iff.mp h1
      subst hL1
      cases h2 : L2.getLast? with
      | none => rfl
      | some y =>
          have hy : y ∈ L2 := List.mem_of_mem_getLast? (Option.mem_def.mpr h2)
          exact absurd ((hmem y).mpr hy) (List.not_mem_nil y)
  | some x =>
      have hx1 : x ∈ L1 := List.mem_of_mem_getLast? (Option.mem_def.mpr h1)
      cases h2 : L2.getLast? with
      | none =>
          have hL2 : L2 = [] := List.getLast?_eq_none_iff.mp h2
          rw [hL2] at hmem
          exact absurd ((hmem x).mp hx1) (List.not_mem_nil x)
      | some y =>
          have hy2 : y ∈ L2 := List.mem_of_mem_getLast? (Option.mem_def.mpr h2)
          have hy1 : y ∈ L1 := (hmem y).mpr hy2
          rw [huniq x y hx1 hy1]

/-- `keys_for` distributes over the concatenated query traces; the
constraint operation contributes nothing. -/
theorem keys_for_create_entities (g : PGraph) (i : Nat) :
    keys_for (create_entities_ops g) i
      = keys_for (project_ops g) i ++ keys_for (artifact_ops g) i
        ++ keys_for (file_like_ops g) i ++ keys_for (member_ops g) i := by
  simp [create_entities_ops, keys_for, List.filterMap_append]

/-- Looking up a nid carried by a member of a nodup-nid list returns that
member's `entity_id`. -/
theorem lookup_entity_id_eq_of_mem (i : Nat) :
    ∀ (l : List GNode), (l.map GNode.nid).Nodup →
      ∀ x, x ∈ l → x.nid = i → lookup_entity_id l i = x.entity_id := by
  intro l
  induction l with
  | nil => intro _ x hx; cases hx
  | cons y ys ih =>
      intro hnodup x hx hxi
      rw [List.map_cons, List.nodup_cons] at hnodup
      by_cases hy : y.nid = i
      · rcases List.mem_cons.mp hx with rfl | hx'
        · simp [lookup_entity_id, hy]
        · exfalso
          apply hnodup.1
          rw [hy, ← hxi]
          exact List.mem_map_of_mem GNode.nid hx'
      · rcases List.mem_cons.mp hx with rfl | hx'
        · exact absurd hxi hy
        · simp only [lookup_entity_id]
          rw [if_neg (by simpa using hy)]
          exact ih hnodup.2 x hx' hxi

/-- Looking up a nid carried by no node returns `none`. -/
theorem lookup_entity_id_none (i : Nat) :
    ∀ (l : List GNode), (l.any (fun n => n.nid == i)) = false →
      lookup_entity_id l i = none := by
  intro l
  induction l with
  | nil => intro _; rfl
  | cons y ys ih =>
      intro h
      simp only [List.any_cons, Bool.or_eq_false_iff] at h
      simp only [lookup_entity_id]
      rw [if_neg (by simp [h.1])]
      exact ih (by simp [h.2])

end GraphEntitySetter

namespace GraphEntitySetter

/-- Project-key membership only depends on node membership. -/
theorem keys_mono_project (g1 g2 : PGraph) (i : Nat)
    (hn : ∀ x : GNode, x ∈ g1.nodes → x ∈ g2.nodes) :
    ∀ kk, kk ∈ keys_for (project_ops g1) i →
      kk ∈ keys_for (project_ops g2) i := by
  intro kk h
  simp only [keys_for, project_ops, List.mem_filterMap, List.mem_map,
    List.mem_filter] at h ⊢
  obtain ⟨op, ⟨p, ⟨hp, hP⟩, rfl⟩, hop⟩ := h
  exact ⟨_, ⟨p, ⟨hn p hp, hP⟩, rfl⟩, hop⟩

/-- Artifact-key membership only depends on node membership. -/
theorem keys_mono_artifact (g1 g2 : PGraph) (i : Nat)
    (hn : ∀ x : GNode, x ∈ g1.nodes → x ∈ g2.nodes) :
    ∀ kk, kk ∈ keys_for (artifact_ops g1) i →
      kk ∈ keys_for (artifact_ops g2) i := by
  intro kk h
  simp only [keys_for, artifact_ops, List.mem_filterMap, List.mem_map,
    List.mem_filter] at h ⊢
  obtain ⟨op, ⟨a, ⟨ha, hA⟩, rfl⟩, hop⟩ := h
  exact ⟨_, ⟨a, ⟨hn a ha, hA⟩, rfl⟩, hop⟩

/-- File-like-key membership only depends on node and `CONTAINS`
membership. -/
theorem keys_mono_file_like (g1 g2 : PGraph) (i : Nat)
    (hn : ∀ x : GNode, x ∈ g1.nodes → x ∈ g2.nodes)
    (hc : ∀ e : Nat × Nat, g1.contains.contains e = g2.contains.contains e) :
    ∀ kk, kk ∈ keys_for (file_like_ops g1) i →
      kk ∈ keys_for (file_like_ops g2) i := by
  intro kk h
  simp only [keys_for, file_like_ops, List.mem_filterMap, List.mem_flatMap,
    List.mem_map, List.mem_filter, Bool.and_eq_true] at h ⊢
  obtain ⟨op, ⟨a, ⟨ha, hA⟩, n, ⟨hnm, hlab, hcond⟩, rfl⟩, hop⟩ := h
  exact ⟨_, ⟨a, ⟨hn a ha, hA⟩, n, ⟨hn n hnm, hlab, by rw [← hc]; exact hcond⟩, rfl⟩, hop⟩

/-- Member-key membership only depends on node, `CONTAINS` and `DECLARES`
membership. -/
theorem keys_mono_member (g1 g2 : PGraph) (i : Nat)
    (hn : ∀ x : GNode, x ∈ g1.nodes → x ∈ g2.nodes)
    (hc : ∀ e : Nat × Nat, g1.contains.contains e = g2.contains.contains e)
    (hd : ∀ e : Nat × Nat, g1.declares.contains e = g2.declares.contains e) :
    ∀ kk, kk ∈ keys_for (member_ops g1) i →
      kk ∈ keys_for (member_ops g2) i := by
  intro kk h
  simp only [keys_for, member_ops, List.mem_filterMap, List.mem_flatMap,
    List.mem_map, List.mem_filter, Bool.and_eq_true] at h ⊢
  obtain ⟨op, ⟨a, ⟨ha, hA⟩, t, ⟨htm, htl, htc⟩, m, ⟨hmm, hml, hmd⟩, rfl⟩, hop⟩ := h
  exact ⟨_, ⟨a, ⟨hn a ha, hA⟩, t, ⟨hn t htm, htl, by rw [← hc]; exact htc⟩,
    m, ⟨hn m hmm, hml, by rw [← hd]; exact hmd⟩, rfl⟩, hop⟩

/-- With nodup nids, all project keys targeting one nid coincide. -/
theorem keys_uniq_project (g : PGraph) (i : Nat)
    (hnodup : (g.nodes.map GNode.nid).Nodup) :
    ∀ k k', k ∈ keys_for (project_ops g) i →
      k' ∈ keys_for (project_ops g) i → k = k' := by
  intro k k' hk hk'
  simp only [keys_for, project_ops, List.mem_filterMap, List.mem_map,
    List.mem_filter] at hk hk'
  obtain ⟨op, ⟨p, ⟨hp, hP⟩, rfl⟩, hop⟩ := hk
  obtain ⟨op', ⟨p', ⟨hp', hP'⟩, rfl⟩, hop'⟩ := hk'
  by_cases hpi : p.nid = i
  · by_cases hpi' : p'.nid = i
    · have hpp : p = p' :=
        List.inj_on_of_nodup_map hnodup hp hp' (by rw [hpi, hpi'])
      subst hpp
      exact Option.some.inj (hop.symm.trans hop')
    · have hred : ((if (p'.nid == i) = true then
          some ["Project://", cy_str p'.absolute_path] else none) :
            Option (List String)) = some k' := hop'
      rw [if_neg (by simpa using hpi')] at hred
      cases hred
  · have hred : ((if (p.nid == i) = true then
        some ["Project://", cy_str p.absolute_path] else none) :
          Option (List String)) = some k := hop
    rw [if_neg (by simpa using hpi)] at hred
    cases hred

/-- With nodup nids, all artifact keys targeting one nid coincide. -/
theorem keys_uniq_artifact (g : PGraph) (i : Nat)
    (hnodup : (g.nodes.map GNode.nid).Nodup) :
    ∀ k k', k ∈ keys_for (artifact_ops g) i →
      k' ∈ keys_for (artifact_ops g) i → k = k' := by
  intro k k' hk hk'
  simp only [keys_for, artifact_ops, List.mem_filterMap, List.mem_map,
    List.mem_filter] at hk hk'
  obtain ⟨op, ⟨a, ⟨ha, hA⟩, rfl⟩, hop⟩ := hk
  obtain ⟨op', ⟨a', ⟨ha', hA'⟩, rfl⟩, hop'⟩ := hk'
  by_cases hai : a.nid = i
  · by_cases hai' : a'.nid = i
    · have haa : a = a' :=
        List.inj_on_of_nodup_map hnodup ha ha' (by rw [hai, hai'])
      subst haa
      exact Option.some.inj (hop.symm.trans hop')
    · have hred : ((if (a'.nid == i) = true then
          some [cy_str a'.fileName] else none) :
            Option (List String)) = some k' := hop'
      rw [if_neg (by simpa using hai')] at hred
      cases hred
  · have hred : ((if (a.nid == i) = true then
        some [cy_str a.fileName] else none) :
          Option (List String)) = some k := hop
    rw [if_neg (by simpa using hai)] at hred
    cases hred

end GraphEntitySetter

/-- C8 amended: the uniqueness constraint is created before any
assignment, and the pass is deterministic **provided** the key rows
targeting a node agree — in particular whenever every
Directory/File/Package/Type node is `CONTAINS`-contained by at most one
Artifact and every Member is declared along at most one artifact/type
chain: any two list representations of the same graph state (node lists
related by a permutation with duplicate-free nids, identical `CONTAINS`
and `DECLARES` edge sets) assign every node the identical `entity_id`,
the md5 of its kind-specific stable key. -/
theorem create_entities_deterministic_when_unique (g1 g2 : PGraph) (i : Nat)
    (hperm : g1.nodes.Perm g2.nodes)
    (hcont : ∀ e : Nat × Nat, g1.contains.contains e = g2.contains.contains e)
    (hdecl : ∀ e : Nat × Nat, g1.declares.contains e = g2.declares.contains e)
    (hnodup : (g1.nodes.map GNode.nid).Nodup)
    (hfu : ∀ k k', k ∈ GraphEntitySetter.keys_for
        (GraphEntitySetter.file_like_ops g1) i →
      k' ∈ GraphEntitySetter.keys_for (GraphEntitySetter.file_like_ops g1) i →
      k = k')
    (hmu : ∀ k k', k ∈ GraphEntitySetter.keys_for
        (GraphEntitySetter.member_ops g1) i →
      k' ∈ GraphEntitySetter.keys_for (GraphEntitySetter.member_ops g1) i →
      k = k') :
    (GraphEntitySetter.create_entities_ops g1).head?
        = some GraphEntitySetter.EntityOp.create_constraint ∧
    GraphEntitySetter.node_entity_id
        (GraphEntitySetter.create_entities_and_stable_ids g1) i
      = GraphEntitySetter.node_entity_id
        (GraphEntitySetter.create_entities_and_stable_ids g2) i := by
  refine ⟨rfl, ?_⟩
  have hnodup2 : (g2.nodes.map GNode.nid).Nodup :=
    ((hperm.map GNode.nid).nodup_iff).mp hnodup
  have hmemn : ∀ x : GNode, x ∈ g1.nodes ↔ x ∈ g2.nodes :=
    fun _ => hperm.mem_iff
  by_cases hp : (g1.nodes.any (fun n => n.nid == i)) = true
  · have hp2 : (g2.nodes.any (fun n => n.nid == i)) = true := by
      rw [List.any_eq_true] at hp ⊢
      obtain ⟨x, hx, hpx⟩ := hp
      exact ⟨x, (hmemn x).mp hx, hpx⟩
    rw [GraphEntitySetter.create_entities_and_stable_ids,
      GraphEntitySetter.create_entities_and_stable_ids,
      GraphEntitySetter.foldl_entity_id_char _ _ _ hp,
      GraphEntitySetter.foldl_entity_id_char _ _ _ hp2,
      GraphEntitySetter.keys_for_create_entities,
      GraphEntitySetter.keys_for_create_entities]
    have hproj : (GraphEntitySetter.keys_for
          (GraphEntitySetter.project_ops g1) i).getLast?
        = (GraphEntitySetter.keys_for
          (GraphEntitySetter.project_ops g2) i).getLast? :=
      GraphEntitySetter.getLast?_eq_of_mem_iff
        (fun x => ⟨GraphEntitySetter.keys_mono_project g1 g2 i
            (fun y hy => (hmemn y).mp hy) x,
          GraphEntitySetter.keys_mono_project g2 g1 i
            (fun y hy => (hmemn y).mpr hy) x⟩)
        (GraphEntitySetter.keys_uniq_project g1 i hnodup)
    have hart : (GraphEntitySetter.keys_for
          (GraphEntitySetter.artifact_ops g1) i).getLast?
        = (GraphEntitySetter.keys_for
          (GraphEntitySetter.artifact_ops g2) i).getLast? :=
      GraphEntitySetter.getLast?_eq_of_mem_iff
        (fun x => ⟨GraphEntitySetter.keys_mono_artifact g1 g2 i
            (fun y hy => (hmemn y).mp hy) x,
          GraphEntitySetter.keys_mono_artifact g2 g1 i
            (fun y hy => (hmemn y).mpr hy) x⟩)
        (GraphEntitySetter.keys_uniq_artifact g1 i hnodup)
    have hfile : (GraphEntitySetter.keys_for
          (GraphEntitySetter.file_like_ops g1) i).getLast?
        = (GraphEntitySetter.keys_for
          (GraphEntitySetter.file_like_ops g2) i).getLast? :=
      GraphEntitySetter.getLast?_eq_of_mem_iff
        (fun x => ⟨GraphEntitySetter.keys_mono_file_like g1 g2 i
            (fun y hy => (hmemn y).mp hy) hcont x,
          GraphEntitySetter.keys_mono_file_like g2 g1 i
            (fun y hy => (hmemn y).mpr hy) (fun e => (hcont e).symm) x⟩)
        hfu
    have hmem : (GraphEntitySetter.keys_for
          (GraphEntitySetter.member_ops g1) i).getLast?
        = (GraphEntitySetter.keys_for
          (GraphEntitySetter.member_ops g2) i).getLast? :=
      GraphEntitySetter.getLast?_eq_of_mem_iff
        (fun x => ⟨GraphEntitySetter.keys_mono_member g1 g2 i
            (fun y hy => (hmemn y).mp hy) hcont hdecl x,
          GraphEntitySetter.keys_mono_member g2 g1 i
            (fun y hy => (hmemn y).mpr hy) (fun e => (hcont e).symm)
            (fun e => (hdecl e).symm) x⟩)
        hmu
    have hfall : GraphEntitySetter.node_entity_id g1 i
        = GraphEntitySetter.node_entity_id g2 i := by
      rw [List.any_eq_true] at hp
      obtain ⟨x, hx1, hpx⟩ := hp
      have hxi : x.nid = i := by simpa using hpx
      rw [GraphEntitySetter.node_entity_id, GraphEntitySetter.node_entity_id,
        GraphEntitySetter.lookup_entity_id_eq_of_mem i g1.nodes hnodup x hx1 hxi,
        GraphEntitySetter.lookup_entity_id_eq_of_mem i g2.nodes hnodup2 x
          ((hmemn x).mp hx1) hxi]
    simp only [List.getLast?_append]
    rw [hproj, hart, hfile, hmem, hfall]
  · have hp1 : (g1.nodes.any (fun n => n.nid == i)) = false := by
      cases hb : (g1.nodes.any (fun n => n.nid == i)) with
      | false => rfl
      | true => exact absurd hb hp
    have hp2 : (g2.nodes.any (fun n => n.nid == i)) = false := by
      cases hb : (g2.nodes.any (fun n => n.nid == i)) with
      | false => rfl
      | true =>
          exfalso
          apply hp
          rw [List.any_eq_true] at hb ⊢
          obtain ⟨x, hx, hpx⟩ := hb
          exact ⟨x, (hmemn x).mpr hx, hpx⟩
    rw [GraphEntitySetter.node_entity_id, GraphEntitySetter.node_entity_id,
      GraphEntitySetter.lookup_entity_id_none i _ (by
        rw [GraphEntitySetter.create_entities_and_stable_ids,
          GraphEntitySetter.foldl_presence]
        exact hp1),
      GraphEntitySetter.lookup_entity_id_none i _ (by
        rw [GraphEntitySetter.create_entities_and_stable_ids,
          GraphEntitySetter.foldl_presence]
        exact hp2)]

/-- A two-node graph (one artifact containing one directory) in its two
list orders, used to witness the determinism theorem. -/
def unique_g1 : PGraph :=
  { nodes := [{ nid := 1, labels := ["Artifact", "Directory"], fileName := some "/r" },
              { nid := 2, labels := ["Directory"], fileName := some "/r/x" }],
    contains := [(1, 2)],
    declares := [] }

/-- `unique_g1` with its node list reversed. -/
def unique_g2 : PGraph :=
  { nodes := [{ nid := 2, labels := ["Directory"], fileName := some "/r/x" },
              { nid := 1, labels := ["Artifact", "Directory"], fileName := some "/r" }],
    contains := [(1, 2)],
    declares := [] }

/-- Closed witness for the amended C8: on a graph where the directory has
a unique containing artifact, both node orders assign node 2 the same
entity id. -/
theorem create_entities_deterministic_when_unique_witness :
    (GraphEntitySetter.create_entities_ops unique_g1).head?
        = some GraphEntitySetter.EntityOp.create_constraint ∧
    GraphEntitySetter.node_entity_id
        (GraphEntitySetter.create_entities_and_stable_ids unique_g1) 2
      = GraphEntitySetter.node_entity_id
        (GraphEntitySetter.create_entities_and_stable_ids unique_g2) 2 :=
  create_entities_deterministic_when_unique unique_g1 unique_g2 2
    (by decide) (fun _ => rfl) (fun _ => rfl) (by decide)
    (by
      intro k k' hk hk'
      rw [show GraphEntitySetter.keys_for
          (GraphEntitySetter.file_like_ops unique_g1) 2
          = [["/r", "/r/x"]] from rfl] at hk hk'
      rw [List.mem_singleton.mp hk, List.mem_singleton.mp hk'])
    (by
      intro k k' hk hk'
      rw [show GraphEntitySetter.keys_for
          (GraphEntitySetter.member_ops unique_g1) 2
          = [] from rfl] at hk
      exact absurd hk (List.not_mem_nil k))
